import Mathlib

/-!
# Verification of the GIF Spoofer core (quantizer, LZW compressor, GIF assembly)

Shallow embedding of the `GifSpoofer` module: `lzwEncode`, `quantize` and
`buildGif`, translated from the JavaScript source.  The JS `Map` is embedded
as an insertion-ordered association list; LZW dictionary keys (JS strings
`"a,b,c"` built from decimal index values) are embedded as `List Nat`;
`Uint8Array` stores truncate mod 256; a JS `table.get` that would return
`undefined` is embedded as `Option.none`.  A standard GIF LZW decoder is
defined below for the round-trip theorem.
-/

namespace GifSpoofer

/-- Association-list embedding of the JS `Map` used as the LZW code table:
`table.get(key)` returns the value of the first entry with that key. -/
def tableGet (t : List (List Nat × Nat)) (key : List Nat) : Option Nat :=
  match t with
  | [] => none
  | (k, v) :: rest => if k = key then some v else tableGet rest key

/-- The seeded LZW table: one literal entry per index value `0..clearCode-1`
(the `for (let i = 0; i < clearCode; i++) table.set(String(i), i)` loop). -/
def initTable (clearCode : Nat) : List (List Nat × Nat) :=
  (List.range clearCode).map fun i => ([i], i)

/-- The mutable locals of `lzwEncode`, plus a ghost `trace` field recording
every `writeBits(code, size)` call as `(code, size, nextCode-at-call)`. -/
structure LzwSt where
  table : List (List Nat × Nat)
  codeSize : Nat
  nextCode : Nat
  w : List Nat
  buffer : Nat
  bufferLen : Nat
  output : List Nat
  trace : List (Nat × Nat × Nat)
deriving Repr, DecidableEq

/-- The `while (bufferLen >= 8)` flush loop inside `writeBits`, with an
explicit structural fuel (the loop runs at most `bufferLen` times since each
iteration removes 8 bits): push `buffer & 0xff`, shift the buffer right by 8. -/
def flushAux : Nat → Nat → Nat → List Nat → Nat × Nat × List Nat
  | 0, buffer, bufferLen, output => (buffer, bufferLen, output)
  | fuel + 1, buffer, bufferLen, output =>
    if 8 ≤ bufferLen then
      flushAux fuel (buffer >>> 8) (bufferLen - 8) (output ++ [buffer &&& 0xff])
    else (buffer, bufferLen, output)

/-- The flush loop, started with enough fuel to run to completion. -/
def flushBytes (buffer bufferLen : Nat) (output : List Nat) : Nat × Nat × List Nat :=
  flushAux bufferLen buffer bufferLen output

/-- `writeBits(code, size)`: OR the code into the bit buffer at the current
fill position (LSB-first packing) and flush completed bytes. -/
def writeBits (s : LzwSt) (code size : Nat) : LzwSt :=
  let b := s.buffer ||| (code <<< s.bufferLen)
  let l := s.bufferLen + size
  let f := flushBytes b l s.output
  { s with buffer := f.1, bufferLen := f.2.1, output := f.2.2,
           trace := s.trace ++ [(code, size, s.nextCode)] }

/-- One iteration of the main `for` loop of `lzwEncode`, on input symbol `k`
(`maxTableSize` is the constant 4096). -/
def lzwStep (clearCode minCodeSize : Nat) (s : LzwSt) (k : Nat) : Option LzwSt :=
  let wk := s.w ++ [k]
  if (tableGet s.table wk).isSome then some { s with w := wk }
  else
    (tableGet s.table s.w).bind fun cw =>
      let s1 := writeBits s cw s.codeSize
      if s1.nextCode < 4096 then
        let s2 := { s1 with table := s1.table ++ [(wk, s1.nextCode)],
                            nextCode := s1.nextCode + 1 }
        let s3 := if s2.nextCode > (1 <<< s2.codeSize) ∧ s2.codeSize < 12 then
                    { s2 with codeSize := s2.codeSize + 1 }
                  else s2
        some { s3 with w := [k] }
      else
        let s2 := writeBits s1 clearCode s1.codeSize
        some { s2 with table := initTable clearCode,
                       nextCode := clearCode + 2,
                       codeSize := minCodeSize + 1, w := [k] }

/-- `lzwEncode` up to (and including) the final pending-`w` and
End-of-Information emissions, returning the full machine state (before the
trailing partial-byte flush).  `indices = []` makes the unguarded
`indices[0]` read undefined, embedded as `none`. -/
def lzwEncodeRun (indices : List Nat) (minCodeSize : Nat) : Option LzwSt :=
  let clearCode := 1 <<< minCodeSize
  match indices with
  | [] => none
  | i0 :: rest =>
    let s0 : LzwSt := { table := initTable clearCode, codeSize := minCodeSize + 1,
                        nextCode := clearCode + 2, w := [i0],
                        buffer := 0, bufferLen := 0, output := [], trace := [] }
    let s1 := writeBits s0 clearCode s0.codeSize
    (rest.foldl (fun acc k => acc.bind fun s => lzwStep clearCode minCodeSize s k)
      (some s1)).bind fun s =>
      (tableGet s.table s.w).bind fun cw =>
        let s2 := writeBits s cw s.codeSize
        some (writeBits s2 (clearCode + 1) s2.codeSize)

/-- `lzwEncode(indices, minCodeSize)`: the compressed byte stream (the final
state's output plus the zero-padded flush of any partial trailing byte). -/
def lzwEncode (indices : List Nat) (minCodeSize : Nat) : Option (List Nat) :=
  (lzwEncodeRun indices minCodeSize).map fun s =>
    if 0 < s.bufferLen then s.output ++ [s.buffer &&& 0xff] else s.output

/-- The emission trace of `lzwEncode`: one `(code, size, nextCode)` triple per
`writeBits` call, in order. -/
def lzwTrace (indices : List Nat) (minCodeSize : Nat) : Option (List (Nat × Nat × Nat)) :=
  (lzwEncodeRun indices minCodeSize).map LzwSt.trace

/-! ## Quantizer -/

/-- `Math.round(r / n)` for natural `r` and positive `n` (round half up). -/
def jsRound (r n : Nat) : Nat := (2 * r + n) / (2 * n)

/-- Channel accessor `p[ch]` on an RGB triple. -/
def chVal (p : Nat × Nat × Nat) (ch : Nat) : Nat :=
  if ch = 0 then p.1 else if ch = 1 then p.2.1 else p.2.2

/-- The depth-0 / empty-bucket collapse of `medianCut`: per-channel mean,
rounded, with `n = pixels.length || 1`. -/
def bucketMean (pixels : List (Nat × Nat × Nat)) : Nat × Nat × Nat :=
  let r := (pixels.map fun p => p.1).sum
  let g := (pixels.map fun p => p.2.1).sum
  let b := (pixels.map fun p => p.2.2).sum
  let n := if pixels.length = 0 then 1 else pixels.length
  (jsRound r n, jsRound g n, jsRound b n)

/-- The min/max-per-channel scan of `medianCut` (initial values
`minR=255, maxR=0`, etc.). -/
def foldRange (pixels : List (Nat × Nat × Nat)) : Nat × Nat × Nat × Nat × Nat × Nat :=
  pixels.foldl (fun acc p =>
    (if p.1 < acc.1 then p.1 else acc.1,
     if p.1 > acc.2.1 then p.1 else acc.2.1,
     if p.2.1 < acc.2.2.1 then p.2.1 else acc.2.2.1,
     if p.2.1 > acc.2.2.2.1 then p.2.1 else acc.2.2.2.1,
     if p.2.2 < acc.2.2.2.2.1 then p.2.2 else acc.2.2.2.2.1,
     if p.2.2 > acc.2.2.2.2.2 then p.2.2 else acc.2.2.2.2.2))
    (255, 0, 255, 0, 255, 0)

/-- `medianCut(pixels, depth)`: recursively split along the widest channel
(ties R over G over B), sorting by that channel and splitting at
`length >> 1`.  JS `Array.prototype.sort` is stable, and a stable sort by a
fixed key is unique, so it is embedded as a stable (insertion) sort. -/
def medianCut : List (Nat × Nat × Nat) → Nat → List (Nat × Nat × Nat)
  | pixels, 0 => [bucketMean pixels]
  | pixels, depth + 1 =>
    if pixels.length = 0 then [bucketMean pixels]
    else
      let mm := foldRange pixels
      let rangeR := mm.2.1 - mm.1
      let rangeG := mm.2.2.2.1 - mm.2.2.1
      let rangeB := mm.2.2.2.2.2 - mm.2.2.2.2.1
      let ch := if rangeR ≥ rangeG ∧ rangeR ≥ rangeB then 0
                else if rangeG ≥ rangeB then 1 else 2
      let sorted := pixels.insertionSort (fun a b => chVal a ch ≤ chVal b ch)
      let mid := sorted.length / 2
      medianCut (sorted.take mid) depth ++ medianCut (sorted.drop mid) depth

/-- The RGB triple of pixel `i` in the RGBA buffer (channels `4i..4i+2`). -/
def pixelAt (data : List Nat) (i : Nat) : Nat × Nat × Nat :=
  (data.getD (i * 4) 0, data.getD (i * 4 + 1) 0, data.getD (i * 4 + 2) 0)

/-- The sampling step: every pixel below 100000 pixels, else every
`floor(pixelCount/50000)`-th. -/
def sampleStepOf (pixelCount : Nat) : Nat :=
  if pixelCount > 100000 then pixelCount / 50000 else 1

/-- The sampled pixel list (`for (let i = 0; i < pixelCount; i += sampleStep)`). -/
def samplesOf (data : List Nat) (pixelCount : Nat) : List (Nat × Nat × Nat) :=
  (List.range ((pixelCount + sampleStepOf pixelCount - 1) / sampleStepOf pixelCount)).map
    fun j => pixelAt data (j * sampleStepOf pixelCount)

/-- Squared RGB distance, computed in signed arithmetic as in the source
(`dr*dr + dg*dg + db*db`). -/
def sqDist (p q : Nat × Nat × Nat) : Int :=
  let dr := (p.1 : Int) - (q.1 : Int)
  let dg := (p.2.1 : Int) - (q.2.1 : Int)
  let db := (p.2.2 : Int) - (q.2.2 : Int)
  dr * dr + dg * dg + db * db

/-- One `if (d < bestDist)` update of the `bestIdx`/`bestDist` pair (`none`
embeds the `Infinity` initial distance; strict `<` keeps the first minimum). -/
def nearestStep (palette : List (Nat × Nat × Nat)) (p : Nat × Nat × Nat)
    (acc : Nat × Option Int) (c : Nat) : Nat × Option Int :=
  let d := sqDist p (palette.getD c (0, 0, 0))
  match acc.2 with
  | none => (c, some d)
  | some bd => if d < bd then (c, some d) else acc

/-- The `bestIdx` scan over the 256 palette entries. -/
def nearestIdx (palette : List (Nat × Nat × Nat)) (p : Nat × Nat × Nat) : Nat :=
  ((List.range 256).foldl (nearestStep palette p) (0, none)).1

/-- `quantize(imageData)`: median-cut palette (padded/truncated to exactly 256
entries) and the per-pixel nearest-palette-index buffer. -/
def quantize (data : List Nat) (width height : Nat) : List (Nat × Nat × Nat) × List Nat :=
  let pixelCount := width * height
  let palette0 := medianCut (samplesOf data pixelCount) 8
  let palette := (palette0 ++ List.replicate (256 - palette0.length) (0, 0, 0)).take 256
  let indices := (List.range pixelCount).map fun i => nearestIdx palette (pixelAt data i) % 256
  (palette, indices)

/-! ## GIF assembly -/

/-- `le16(v)`: little-endian 16-bit. -/
def le16 (v : Nat) : List Nat := [v &&& 0xff, (v >>> 8) &&& 0xff]

/-- The Global Colour Table bytes: 256 RGB triples flattened
(`Uint8Array` stores truncate mod 256). -/
def gctBytes (palette : List (Nat × Nat × Nat)) : List Nat :=
  ((List.range 256).map fun i =>
    [(palette.getD i (0, 0, 0)).1 % 256, (palette.getD i (0, 0, 0)).2.1 % 256,
     (palette.getD i (0, 0, 0)).2.2 % 256]).flatten

/-- GIF image-data sub-blocks: chunks of at most 255 bytes, each preceded by
its length byte (the `while (offset < compressed.length)` loop), with an
explicit structural fuel (each iteration consumes at least one byte). -/
def subBlocksAux : Nat → List Nat → List Nat
  | 0, _ => []
  | fuel + 1, l =>
    if l = [] then []
    else (min 255 l.length) :: (l.take 255 ++ subBlocksAux fuel (l.drop 255))

/-- The sub-block loop, started with enough fuel to consume the input. -/
def subBlocks (l : List Nat) : List Nat :=
  subBlocksAux l.length l

/-- `buildGif(imageData)`: header, Logical Screen Descriptor, Global Colour
Table, Graphic Control Extension, Image Descriptor, LZW minimum code size,
data sub-blocks, block terminator, trailer. -/
def buildGif (data : List Nat) (width height : Nat) : Option (List Nat) :=
  let q := quantize data width height
  (lzwEncode q.2 8).map fun compressed =>
    [0x47, 0x49, 0x46, 0x38, 0x39, 0x61] ++
    (le16 width ++ le16 height ++ [0xf7, 0x00, 0x00]) ++
    gctBytes q.1 ++
    [0x21, 0xf9, 0x04, 0x00, 0x00, 0x00, 0x00, 0x00] ++
    ([0x2c] ++ le16 0 ++ le16 0 ++ le16 width ++ le16 height ++ [0x00]) ++
    [8] ++
    subBlocks compressed ++
    [0x00] ++
    [0x3b]

/-! ## A standard GIF LZW decoder (minimum code size 8)

Codes are read LSB-first at the current code width; the width grows by one
bit immediately after the table entry that fills it is added (cap 12 bits,
table capped at 4096 entries); a final partial read at stream end is
zero-extended, matching the encoder's zero-padded flush. -/

/-- Bit list (LSB-first) of the low `size` bits of `n`. -/
def natBits : Nat → Nat → List Bool
  | _, 0 => []
  | n, size + 1 => (n % 2 == 1) :: natBits (n / 2) size

/-- Value of an LSB-first bit list. -/
def bitsVal : List Bool → Nat
  | [] => 0
  | b :: bs => (if b then 1 else 0) + 2 * bitsVal bs

/-- A byte stream as a bit stream, LSB-first within each byte. -/
def bytesToBits (bytes : List Nat) : List Bool :=
  (bytes.map fun b => natBits b 8).flatten

/-- Decoder state: table entries for codes `258, 259, ...`, the current code
width, and the previously decoded string (`none` right after a Clear). -/
structure DecSt where
  dtab : List (List Nat)
  codeSize : Nat
  prev : Option (List Nat)
deriving Repr, DecidableEq

/-- The string a standard decoder assigns to a non-control code: a literal,
a table entry, or (for the next free slot) the `prev ++ [prev.head]`
just-in-time case. -/
def decStr (d : DecSt) (p : List Nat) (code : Nat) : Option (List Nat) :=
  if code < 256 then some [code]
  else if code < 258 then none
  else if h : code - 258 < d.dtab.length then some (d.dtab.get ⟨code - 258, h⟩)
  else if code = 258 + d.dtab.length then some (p ++ [p.headD 0]) else none

/-- One-pass LZW decoding loop over the bit stream (fuel-indexed). -/
def decodeLoop : Nat → DecSt → List Bool → Option (List Nat)
  | 0, _, _ => none
  | fuel + 1, d, bits =>
    if bits = [] then none
    else
      let code := bitsVal (bits.take d.codeSize)
      let rest := bits.drop d.codeSize
      if code = 256 then
        decodeLoop fuel { dtab := [], codeSize := 9, prev := none } rest
      else if code = 257 then some []
      else
        match d.prev with
        | none =>
          if code < 256 then
            (decodeLoop fuel { d with prev := some [code] } rest).map fun out => code :: out
          else none
        | some p =>
          (decStr d p code).bind fun seq =>
            let d1 :=
              if 258 + d.dtab.length < 4096 then
                let dtab1 := d.dtab ++ [p ++ [seq.headD 0]]
                { dtab := dtab1,
                  codeSize := if 258 + dtab1.length = 2 ^ d.codeSize ∧ d.codeSize < 12
                              then d.codeSize + 1 else d.codeSize,
                  prev := some seq }
              else { d with prev := some seq }
            (decodeLoop fuel d1 rest).map fun out => seq ++ out

/-- Standard GIF LZW decode of a byte stream, minimum code size 8. -/
def lzwDecode (bytes : List Nat) : Option (List Nat) :=
  decodeLoop (bytes.length * 8 + 1)
    { dtab := [], codeSize := 9, prev := none } (bytesToBits bytes)

/-- The bit stream an encoder state has produced so far: flushed bytes plus
the partial bit buffer. -/
def bitsOf (s : LzwSt) : List Bool :=
  bytesToBits s.output ++ natBits s.buffer s.bufferLen

/-- Encoder-table well-formedness relative to the ghost list `added` of
post-seed insertions (minimum code size 8): the table is the seed plus
`added`, insertion codes are consecutive from 258, inserted keys are
multi-symbol strings over `0..255`, and keys are distinct. -/
def EncTable (s : LzwSt) (added : List (List Nat × Nat)) : Prop :=
  s.table = initTable 256 ++ added ∧
  s.nextCode = 258 + added.length ∧
  added.map Prod.snd = List.range' 258 added.length ∧
  (∀ e ∈ added, 2 ≤ e.1.length ∧ ∀ x ∈ e.1, x < 256) ∧
  (s.table.map Prod.fst).Nodup

/-- The encoder/decoder synchronisation invariant (minimum code size 8),
holding between loop iterations: the decoder has consumed exactly the codes
emitted so far; its table lags the encoder's by one entry (none right after
a Clear), the missing entry being `prev ++ [w.head]`; code widths agree and
equal `clog2 nextCode`. -/
def Inv (s : LzwSt) (d : DecSt) (added : List (List Nat × Nat)) : Prop :=
  EncTable s added ∧
  s.codeSize = Nat.clog 2 s.nextCode ∧
  s.nextCode ≤ 4096 ∧
  s.w ≠ [] ∧ (∀ x ∈ s.w, x < 256) ∧
  (tableGet s.table s.w).isSome ∧
  s.buffer < 2 ^ s.bufferLen ∧
  d.codeSize = s.codeSize ∧
  ((added = [] ∧ d.dtab = [] ∧ d.prev = none ∧ s.w.length = 1) ∨
   (∃ p, d.prev = some p ∧ p ≠ [] ∧
     added.map Prod.fst = d.dtab ++ [p ++ [s.w.headD 0]]))

/-- Every `(code, size, nextCode)` emission in a trace segment was written at
the width a standard GIF decoder expects there: `size = clog2 nextCode`, with
`nextCode` in the legal `258..4096` window. -/
def TraceOK (l : List (Nat × Nat × Nat)) : Prop :=
  ∀ e ∈ l, e.2.1 = Nat.clog 2 e.2.2 ∧ 258 ≤ e.2.2 ∧ e.2.2 ≤ 4096

/-! ## Lemmas: LSB-first bit packing -/

theorem natBits_length (l : Nat) : ∀ n, (natBits n l).length = l := by
  induction l with
  | zero => intro n; rfl
  | succ l ih => intro n; simp [natBits, ih]

theorem natBits_congr_mod (l : Nat) : ∀ a b, a % 2 ^ l = b % 2 ^ l →
    natBits a l = natBits b l := by
  induction l with
  | zero => intro a b _; rfl
  | succ l ih =>
    intro a b h
    have h2 : a % 2 = b % 2 := by
      have ha : a % 2 ^ (l + 1) % 2 = a % 2 := Nat.mod_mod_of_dvd a ⟨2 ^ l, by ring⟩
      have hb : b % 2 ^ (l + 1) % 2 = b % 2 := Nat.mod_mod_of_dvd b ⟨2 ^ l, by ring⟩
      rw [← ha, ← hb, h]
    have hd : a / 2 % 2 ^ l = b / 2 % 2 ^ l := by
      have ha := Nat.div_mod_eq_mod_mul_div a 2 (2 ^ l)
      have hb := Nat.div_mod_eq_mod_mul_div b 2 (2 ^ l)
      rw [ha, hb]
      have : (2 : Nat) * 2 ^ l = 2 ^ (l + 1) := by ring
      rw [this, h]
    simp [natBits, h2, ih _ _ hd]

theorem natBits_add (a : Nat) : ∀ b n, natBits n (a + b) = natBits n a ++ natBits (n >>> a) b := by
  induction a with
  | zero => intro b n; simp [natBits]
  | succ a ih =>
    intro b n
    have h1 : a + 1 + b = (a + b) + 1 := by omega
    rw [h1]
    show (n % 2 == 1) :: natBits (n / 2) (a + b) =
      ((n % 2 == 1) :: natBits (n / 2) a) ++ natBits (n >>> (a + 1)) b
    rw [ih b (n / 2)]
    have hsr : (n / 2) >>> a = n >>> (a + 1) := by
      rw [Nat.add_comm a 1, Nat.shiftRight_add, Nat.shiftRight_one]
    rw [hsr]
    rfl

theorem bitsVal_natBits (l : Nat) : ∀ n, bitsVal (natBits n l) = n % 2 ^ l := by
  induction l with
  | zero => intro n; simp [natBits, bitsVal, Nat.mod_one]
  | succ l ih =>
    intro n
    show bitsVal ((n % 2 == 1) :: natBits (n / 2) l) = n % 2 ^ (l + 1)
    simp only [bitsVal, ih]
    have hmm : n % 2 ^ (l + 1) % 2 = n % 2 := Nat.mod_mod_of_dvd n ⟨2 ^ l, by ring⟩
    have hdm : n / 2 % 2 ^ l = n % (2 * 2 ^ l) / 2 := Nat.div_mod_eq_mod_mul_div n 2 (2 ^ l)
    have hp : (2 : Nat) * 2 ^ l = 2 ^ (l + 1) := by ring
    rw [hp] at hdm
    have hlt : n % 2 ^ (l + 1) < 2 ^ (l + 1) := Nat.mod_lt _ (Nat.pos_pow_of_pos _ (by omega))
    by_cases h2 : n % 2 = 1 <;> simp [h2] <;> omega

theorem natBits_zero_eq (l : Nat) : natBits 0 l = List.replicate l false := by
  induction l with
  | zero => rfl
  | succ l ih => simp [natBits, List.replicate_succ, ih]

theorem natBits_pad {n l m : Nat} (hn : n < 2 ^ l) (hlm : l ≤ m) :
    natBits n m = natBits n l ++ List.replicate (m - l) false := by
  have hz : n >>> l = 0 := by
    rw [Nat.shiftRight_eq_div_pow]
    exact Nat.div_eq_of_lt hn
  conv_lhs => rw [show m = l + (m - l) by omega]
  rw [natBits_add, hz, natBits_zero_eq]

theorem natBits_lor_shift {a l : Nat} (c m : Nat) (ha : a < 2 ^ l) :
    natBits (a ||| (c <<< l)) (l + m) = natBits a l ++ natBits c m := by
  rw [natBits_add]
  have h1 : natBits (a ||| c <<< l) l = natBits a l := by
    apply natBits_congr_mod
    rw [← Nat.and_pow_two_sub_one_eq_mod (a ||| c <<< l) l,
        Nat.and_distrib_right, Nat.and_pow_two_sub_one_eq_mod,
        Nat.and_pow_two_sub_one_eq_mod, Nat.shiftLeft_eq,
        Nat.mul_mod_left, Nat.or_zero, Nat.mod_eq_of_lt ha]
  have h2 : (a ||| c <<< l) >>> l = c := by
    apply Nat.eq_of_testBit_eq
    intro i
    have hta : a.testBit (l + i) = false :=
      Nat.testBit_lt_two_pow (lt_of_lt_of_le ha (Nat.pow_le_pow_right (by omega) (Nat.le_add_right l i)))
    rw [Nat.testBit_shiftRight, Nat.testBit_or, Nat.testBit_shiftLeft, hta]
    simp [Nat.le_add_right, Nat.add_sub_cancel_left]
  rw [h1, h2]

theorem bitsVal_append (xs ys : List Bool) :
    bitsVal (xs ++ ys) = bitsVal xs + 2 ^ xs.length * bitsVal ys := by
  induction xs with
  | nil => simp [bitsVal]
  | cons b t ih => simp [bitsVal, ih]; ring

theorem bitsVal_replicate_false (n : Nat) : bitsVal (List.replicate n false) = 0 := by
  induction n with
  | zero => rfl
  | succ n ih => simp [List.replicate_succ, bitsVal, ih]

/-- Reading `m ≥ sz` bits from a code of `sz` bits followed by zero padding
recovers the code (zero-extension at stream end included, via `List.take`). -/
theorem bitsVal_take_code {c sz m p : Nat} (hc : c < 2 ^ sz) (hm : sz ≤ m) :
    bitsVal ((natBits c sz ++ List.replicate p false).take m) = c := by
  rw [List.take_append_eq_append_take, natBits_length,
      List.take_of_length_le (by rw [natBits_length]; exact hm), List.take_replicate,
      bitsVal_append, bitsVal_natBits, bitsVal_replicate_false, Nat.mod_eq_of_lt hc]
  ring

theorem take_code_bits {c sz : Nat} (r : List Bool) (hc : c < 2 ^ sz) :
    bitsVal ((natBits c sz ++ r).take sz) = c ∧ (natBits c sz ++ r).drop sz = r := by
  constructor
  · rw [List.take_append_eq_append_take, natBits_length,
        List.take_of_length_le (by rw [natBits_length]),
        Nat.sub_self, List.take_zero, List.append_nil, bitsVal_natBits, Nat.mod_eq_of_lt hc]
  · rw [List.drop_append_eq_append_drop, natBits_length,
        List.drop_of_length_le (by rw [natBits_length]), Nat.sub_self, List.drop_zero]
    simp

theorem bytesToBits_append (a b : List Nat) :
    bytesToBits (a ++ b) = bytesToBits a ++ bytesToBits b := by
  simp [bytesToBits]

theorem flushAux_spec : ∀ fuel buffer bufferLen output, bufferLen ≤ fuel →
    buffer < 2 ^ bufferLen →
    (flushAux fuel buffer bufferLen output).1 <
      2 ^ (flushAux fuel buffer bufferLen output).2.1 ∧
    (flushAux fuel buffer bufferLen output).2.1 < 8 ∧
    bytesToBits (flushAux fuel buffer bufferLen output).2.2 ++
      natBits (flushAux fuel buffer bufferLen output).1
        (flushAux fuel buffer bufferLen output).2.1 =
      bytesToBits output ++ natBits buffer bufferLen := by
  intro fuel
  induction fuel with
  | zero =>
    intro buffer bufferLen output hle hlt
    have h0 : bufferLen = 0 := by omega
    subst h0
    exact ⟨hlt, by show (0 : Nat) < 8; omega, rfl⟩
  | succ fuel ih =>
    intro buffer bufferLen output hle hlt
    by_cases h8 : 8 ≤ bufferLen
    · have hstep : flushAux (fuel + 1) buffer bufferLen output
          = flushAux fuel (buffer >>> 8) (bufferLen - 8) (output ++ [buffer &&& 0xff]) := by
        rw [flushAux, if_pos h8]
      rw [hstep]
      have hdiv : buffer >>> 8 < 2 ^ (bufferLen - 8) := by
        rw [Nat.shiftRight_eq_div_pow]
        apply Nat.div_lt_of_lt_mul
        calc buffer < 2 ^ bufferLen := hlt
          _ = 2 ^ 8 * 2 ^ (bufferLen - 8) := by rw [← pow_add]; congr 1; omega
      obtain ⟨ih1, ih2, ih3⟩ := ih (buffer >>> 8) (bufferLen - 8) (output ++ [buffer &&& 0xff])
        (by omega) hdiv
      refine ⟨ih1, ih2, ?_⟩
      rw [ih3, bytesToBits_append]
      have hsplit : natBits buffer bufferLen
          = natBits buffer 8 ++ natBits (buffer >>> 8) (bufferLen - 8) := by
        conv_lhs => rw [show bufferLen = 8 + (bufferLen - 8) by omega]
        rw [natBits_add]
      have hand : natBits (buffer &&& 0xff) 8 = natBits buffer 8 := by
        apply natBits_congr_mod
        have h255 : (0xff : Nat) = 2 ^ 8 - 1 := by norm_num
        rw [h255, Nat.and_pow_two_sub_one_eq_mod]
        exact Nat.mod_mod_of_dvd buffer dvd_rfl
      have hbyte : bytesToBits [buffer &&& 0xff] = natBits (buffer &&& 0xff) 8 := by
        simp [bytesToBits]
      rw [hbyte, hand, hsplit, List.append_assoc]
    · rw [flushAux, if_neg h8]
      exact ⟨hlt, by show bufferLen < 8; omega, rfl⟩

theorem flushBytes_spec : ∀ buffer bufferLen output, buffer < 2 ^ bufferLen →
    (flushBytes buffer bufferLen output).1 < 2 ^ (flushBytes buffer bufferLen output).2.1 ∧
    (flushBytes buffer bufferLen output).2.1 < 8 ∧
    bytesToBits (flushBytes buffer bufferLen output).2.2 ++
      natBits (flushBytes buffer bufferLen output).1 (flushBytes buffer bufferLen output).2.1 =
      bytesToBits output ++ natBits buffer bufferLen := by
  intro buffer bufferLen output hlt
  exact flushAux_spec bufferLen buffer bufferLen output (le_refl _) hlt

/-- `writeBits` appends exactly the `size` low bits of `code` to the bit
stream and touches nothing else (beyond the ghost trace). -/
theorem writeBits_spec (s : LzwSt) (code size : Nat)
    (hb : s.buffer < 2 ^ s.bufferLen) (hcode : code < 2 ^ size) :
    (writeBits s code size).buffer < 2 ^ (writeBits s code size).bufferLen ∧
    (writeBits s code size).bufferLen < 8 ∧
    bitsOf (writeBits s code size) = bitsOf s ++ natBits code size ∧
    (writeBits s code size).table = s.table ∧
    (writeBits s code size).codeSize = s.codeSize ∧
    (writeBits s code size).nextCode = s.nextCode ∧
    (writeBits s code size).w = s.w ∧
    (writeBits s code size).trace = s.trace ++ [(code, size, s.nextCode)] := by
  have hor : s.buffer ||| (code <<< s.bufferLen) < 2 ^ (s.bufferLen + size) := by
    apply Nat.or_lt_two_pow
    · exact lt_of_lt_of_le hb (Nat.pow_le_pow_right (by omega) (by omega))
    · rw [Nat.shiftLeft_eq, pow_add, Nat.mul_comm (2 ^ s.bufferLen)]
      exact Nat.mul_lt_mul_of_lt_of_le hcode (le_refl _) (Nat.pos_pow_of_pos _ (by omega))
  obtain ⟨h1, h2, h3⟩ := flushBytes_spec (s.buffer ||| (code <<< s.bufferLen))
    (s.bufferLen + size) s.output hor
  refine ⟨h1, h2, ?_, rfl, rfl, rfl, rfl, rfl⟩
  show bytesToBits (flushBytes (s.buffer ||| code <<< s.bufferLen) (s.bufferLen + size) s.output).2.2 ++
      natBits (flushBytes (s.buffer ||| code <<< s.bufferLen) (s.bufferLen + size) s.output).1
        (flushBytes (s.buffer ||| code <<< s.bufferLen) (s.bufferLen + size) s.output).2.1 =
      bitsOf s ++ natBits code size
  rw [h3, bitsOf, List.append_assoc, natBits_lor_shift code size hb]

/-! ## Lemmas: the LZW code table -/

theorem tableGet_eq_none_iff (t : List (List Nat × Nat)) (k : List Nat) :
    tableGet t k = none ↔ k ∉ t.map Prod.fst := by
  induction t with
  | nil => simp [tableGet]
  | cons e rest ih =>
    obtain ⟨ek, ev⟩ := e
    by_cases h : ek = k
    · subst h
      simp [tableGet]
    · simp [tableGet, h, ih, Ne.symm h]

theorem tableGet_mem {t : List (List Nat × Nat)} {k : List Nat} {v : Nat}
    (h : tableGet t k = some v) : (k, v) ∈ t := by
  induction t with
  | nil => simp [tableGet] at h
  | cons e rest ih =>
    obtain ⟨ek, ev⟩ := e
    by_cases he : ek = k
    · subst he
      simp [tableGet] at h
      simp [h]
    · simp [tableGet, he] at h
      simp [ih h]

theorem tableGet_append_left {t1 : List (List Nat × Nat)} {k : List Nat} {v : Nat}
    (t2 : List (List Nat × Nat)) (h : tableGet t1 k = some v) :
    tableGet (t1 ++ t2) k = some v := by
  induction t1 with
  | nil => simp [tableGet] at h
  | cons e rest ih =>
    obtain ⟨ek, ev⟩ := e
    by_cases he : ek = k
    · subst he
      simp [tableGet] at h ⊢
      exact h
    · simp [tableGet, he] at h ⊢
      exact ih h

theorem tableGet_append_right {t1 : List (List Nat × Nat)} {k : List Nat}
    (t2 : List (List Nat × Nat)) (h : tableGet t1 k = none) :
    tableGet (t1 ++ t2) k = tableGet t2 k := by
  induction t1 with
  | nil => simp
  | cons e rest ih =>
    obtain ⟨ek, ev⟩ := e
    by_cases he : ek = k
    · subst he
      simp [tableGet] at h
    · simp [tableGet, he] at h ⊢
      exact ih h

theorem initTable_succ (n : Nat) : initTable (n + 1) = initTable n ++ [([n], n)] := by
  simp [initTable, List.range_succ]

theorem initTable_lit {j n : Nat} (h : j < n) : tableGet (initTable n) [j] = some j := by
  induction n with
  | zero => omega
  | succ n ih =>
    rw [initTable_succ]
    rcases Nat.lt_succ_iff_lt_or_eq.mp h with h | h
    · exact tableGet_append_left _ (ih h)
    · subst h
      rw [tableGet_append_right]
      · simp [tableGet]
      · rw [tableGet_eq_none_iff]
        intro hmem
        simp only [initTable, List.map_map, List.mem_map, List.mem_range] at hmem
        obtain ⟨i, hi, he⟩ := hmem
        have h2 : i = j := by simpa using he
        omega

theorem initTable_mem_iff {k : List Nat} {v n : Nat} :
    (k, v) ∈ initTable n ↔ k = [v] ∧ v < n := by
  simp only [initTable, List.mem_map, List.mem_range]
  constructor
  · rintro ⟨i, hi, he⟩
    rw [Prod.mk.injEq] at he
    obtain ⟨h1, h2⟩ := he
    subst h2
    exact ⟨h1.symm, hi⟩
  · rintro ⟨hk, hv⟩
    exact ⟨v, hv, by rw [hk]⟩

theorem initTable_none_of_long {k : List Nat} (n : Nat) (h : k.length ≠ 1) :
    tableGet (initTable n) k = none := by
  rw [tableGet_eq_none_iff]
  intro hmem
  simp only [initTable, List.map_map, List.mem_map, List.mem_range] at hmem
  obtain ⟨i, _, he⟩ := hmem
  apply h
  rw [← he]
  rfl

theorem initTable_keys_nodup (n : Nat) : ((initTable n).map Prod.fst).Nodup := by
  have : (initTable n).map Prod.fst = (List.range n).map fun i => [i] := by
    simp [initTable, List.map_map]
  rw [this]
  apply List.Nodup.map
  · intro a b hab
    simpa using hab
  · exact List.nodup_range n

/-- A successful lookup in a well-formed encoder table is either a literal or
one of the `added` entries, with its sequential code. -/
theorem cwCases {s : LzwSt} {added : List (List Nat × Nat)} {w : List Nat} {c : Nat}
    (ht : EncTable s added) (h : tableGet s.table w = some c) :
    (c < 256 ∧ w = [c]) ∨
    (∃ j, ∃ hj : j < added.length, c = 258 + j ∧ (added.get ⟨j, hj⟩).1 = w) := by
  obtain ⟨htab, hnext, hsnd, _, _⟩ := ht
  have hmem := tableGet_mem h
  rw [htab] at hmem
  rcases List.mem_append.mp hmem with hmem | hmem
  · left
    obtain ⟨hk, hv⟩ := initTable_mem_iff.mp hmem
    exact ⟨hv, hk⟩
  · right
    obtain ⟨j, hj, hget⟩ := List.mem_iff_getElem.mp hmem
    have h1 : (added.map Prod.snd)[j]? = some c := by
      rw [List.getElem?_map, List.getElem?_eq_getElem hj, hget]
      rfl
    rw [hsnd] at h1
    have h2 : (List.range' 258 added.length)[j]? = some (258 + 1 * j) :=
      List.getElem?_range' 258 1 hj
    rw [h2] at h1
    have hc : c = 258 + j := by
      injection h1 with h1
      omega
    refine ⟨j, hj, hc, ?_⟩
    simp only [List.get_eq_getElem, hget]

/-- The values of a well-formed encoder table are below `nextCode` and are
never the control codes 256/257. -/
theorem tableGet_val_lt {s : LzwSt} {added : List (List Nat × Nat)} {w : List Nat} {c : Nat}
    (ht : EncTable s added) (h : tableGet s.table w = some c) :
    c < s.nextCode ∧ c ≠ 256 ∧ c ≠ 257 := by
  have hnext : s.nextCode = 258 + added.length := ht.2.1
  rcases cwCases ht h with ⟨hc, _⟩ | ⟨j, hj, hc, _⟩
  · exact ⟨by omega, by omega, by omega⟩
  · exact ⟨by omega, by omega, by omega⟩

/-- Literal lookup in a well-formed encoder table. -/
theorem tableGet_lit {s : LzwSt} {added : List (List Nat × Nat)} {k : Nat}
    (ht : EncTable s added) (hk : k < 256) : tableGet s.table [k] = some k := by
  rw [ht.1]
  exact tableGet_append_left _ (initTable_lit hk)

/-! ## Lemmas: code widths -/

theorem clog2_interval {k n : Nat} (h1 : 2 ^ k < n) (h2 : n ≤ 2 ^ (k + 1)) :
    Nat.clog 2 n = k + 1 := by
  apply le_antisymm
  · calc Nat.clog 2 n ≤ Nat.clog 2 (2 ^ (k + 1)) := Nat.clog_mono_right 2 h2
      _ = k + 1 := Nat.clog_pow 2 (k + 1) (by omega)
  · exact (Nat.pow_lt_iff_lt_clog (by omega)).mp h1

/-- Derived width bounds from the invariant equation `codeSize = clog2 nextCode`. -/
theorem codeSize_bounds {cs n : Nat} (hcs : cs = Nat.clog 2 n)
    (hlo : 258 ≤ n) (hhi : n ≤ 4096) :
    9 ≤ cs ∧ cs ≤ 12 ∧ n ≤ 2 ^ cs := by
  subst hcs
  refine ⟨?_, ?_, Nat.le_pow_clog (by omega) n⟩
  · have : (8 : Nat) < Nat.clog 2 n := (Nat.pow_lt_iff_lt_clog (by omega)).mp (by norm_num; omega)
    omega
  · calc Nat.clog 2 n ≤ Nat.clog 2 (2 ^ 12) := Nat.clog_mono_right 2 (by norm_num at hhi ⊢; omega)
      _ = 12 := Nat.clog_pow 2 12 (by omega)

/-- After inserting entry `n` (making `nextCode = n+1`), the encoder's widen
rule keeps `codeSize = clog2 nextCode`. -/
theorem clog2_insert_step {cs n : Nat} (hcs : cs = Nat.clog 2 n) (hlo : 258 ≤ n)
    (hhi : n ≤ 2 ^ cs) (h4096 : n < 4096) :
    (if n + 1 > 2 ^ cs ∧ cs < 12 then cs + 1 else cs) = Nat.clog 2 (n + 1) := by
  by_cases hfull : n = 2 ^ cs
  · have hcs12 : cs < 12 := by
      by_contra hc
      have h1 : (2 : Nat) ^ 12 ≤ 2 ^ cs := Nat.pow_le_pow_right (by omega) (by omega)
      have h2 : (2 : Nat) ^ 12 = 4096 := by norm_num
      omega
    rw [if_pos ⟨by omega, hcs12⟩]
    have hp : (1 : Nat) ≤ 2 ^ cs := Nat.pos_pow_of_pos cs (by omega)
    exact (clog2_interval (by omega) (by rw [pow_succ]; omega)).symm
  · rw [if_neg (by omega)]
    apply le_antisymm
    · rw [hcs]
      exact Nat.clog_mono_right 2 (by omega)
    · calc Nat.clog 2 (n + 1) ≤ Nat.clog 2 (2 ^ cs) := Nat.clog_mono_right 2 (by omega)
        _ = cs := Nat.clog_pow 2 cs (by omega)

/-! ## Lemmas: single decoder steps -/

theorem decodeLoop_succ (fuel : Nat) (d : DecSt) (bits : List Bool) :
    decodeLoop (fuel + 1) d bits =
      if bits = [] then none
      else
        if bitsVal (bits.take d.codeSize) = 256 then
          decodeLoop fuel { dtab := [], codeSize := 9, prev := none } (bits.drop d.codeSize)
        else if bitsVal (bits.take d.codeSize) = 257 then some []
        else match d.prev with
        | none =>
          if bitsVal (bits.take d.codeSize) < 256 then
            (decodeLoop fuel { d with prev := some [bitsVal (bits.take d.codeSize)] }
              (bits.drop d.codeSize)).map fun out => bitsVal (bits.take d.codeSize) :: out
          else none
        | some p =>
          (decStr d p (bitsVal (bits.take d.codeSize))).bind fun seq =>
            (decodeLoop fuel
              (if 258 + d.dtab.length < 4096 then
                { dtab := d.dtab ++ [p ++ [seq.headD 0]],
                  codeSize := if 258 + (d.dtab ++ [p ++ [seq.headD 0]]).length = 2 ^ d.codeSize
                                ∧ d.codeSize < 12
                              then d.codeSize + 1 else d.codeSize,
                  prev := some seq }
              else { d with prev := some seq })
              (bits.drop d.codeSize)).map fun out => seq ++ out := rfl

theorem decodeLoop_succ_some (fuel : Nat) (dtab : List (List Nat)) (cs : Nat)
    (p : List Nat) (bits : List Bool) :
    decodeLoop (fuel + 1) ⟨dtab, cs, some p⟩ bits =
      if bits = [] then none
      else
        if bitsVal (bits.take cs) = 256 then
          decodeLoop fuel { dtab := [], codeSize := 9, prev := none } (bits.drop cs)
        else if bitsVal (bits.take cs) = 257 then some []
        else
          (decStr ⟨dtab, cs, some p⟩ p (bitsVal (bits.take cs))).bind fun seq =>
            (decodeLoop fuel
              (if 258 + dtab.length < 4096 then
                { dtab := dtab ++ [p ++ [seq.headD 0]],
                  codeSize := if 258 + (dtab ++ [p ++ [seq.headD 0]]).length = 2 ^ cs ∧ cs < 12
                              then cs + 1 else cs,
                  prev := some seq }
              else { dtab := dtab, codeSize := cs, prev := some seq })
              (bits.drop cs)).map fun out => seq ++ out := rfl

theorem code_bits_ne_nil {c cs : Nat} (r : List Bool) (hcs : 0 < cs) :
    natBits c cs ++ r ≠ [] := by
  intro h
  have h2 := congrArg List.length h
  rw [List.length_append, natBits_length] at h2
  simp at h2
  omega

theorem pos_of_256_lt {cs : Nat} (hcs : 256 < 2 ^ cs) : 0 < cs := by
  rcases Nat.eq_zero_or_pos cs with h | h
  · rw [h] at hcs; norm_num at hcs
  · exact h

/-- Reading a Clear code resets the decoder. -/
theorem decode_clear (fuel : Nat) (d : DecSt) (r : List Bool)
    (hcs : 256 < 2 ^ d.codeSize) :
    decodeLoop (fuel + 1) d (natBits 256 d.codeSize ++ r) =
      decodeLoop fuel { dtab := [], codeSize := 9, prev := none } r := by
  obtain ⟨hval, hdrop⟩ := @take_code_bits 256 d.codeSize r hcs
  rw [decodeLoop_succ, if_neg (code_bits_ne_nil r (pos_of_256_lt hcs)), hval, hdrop, if_pos rfl]

/-- Reading an End-of-Information code (possibly with the decoder one bit
wider than the written code, reading into the zero padding) terminates
decoding. -/
theorem decode_eoi (fuel : Nat) (d : DecSt) (cs pad : Nat)
    (hlt : 257 < 2 ^ cs) (hle : cs ≤ d.codeSize) :
    decodeLoop (fuel + 1) d (natBits 257 cs ++ List.replicate pad false) = some [] := by
  have hpos : 0 < cs := pos_of_256_lt (by omega)
  have hval : bitsVal ((natBits 257 cs ++ List.replicate pad false).take d.codeSize) = 257 :=
    bitsVal_take_code hlt hle
  rw [decodeLoop_succ, if_neg (code_bits_ne_nil _ hpos), hval,
    if_neg (by decide), if_pos rfl]

/-- Reading a literal code right after a Clear (decoder `prev = none`). -/
theorem decode_code_A (fuel : Nat) (d : DecSt) (k : Nat) (r : List Bool)
    (hprev : d.prev = none) (hk : k < 256) (hcs : 256 < 2 ^ d.codeSize) :
    decodeLoop (fuel + 1) d (natBits k d.codeSize ++ r) =
      (decodeLoop fuel { d with prev := some [k] } r).map fun out => k :: out := by
  have hpos : 0 < d.codeSize := pos_of_256_lt hcs
  obtain ⟨hval, hdrop⟩ := @take_code_bits k d.codeSize r (by omega)
  rw [decodeLoop_succ, if_neg (code_bits_ne_nil r hpos), hval, hdrop,
    if_neg (by omega), if_neg (by omega), hprev]
  rw [if_pos hk]

theorem headD_append_ne_nil {p : List Nat} (x d : Nat) (h : p ≠ []) :
    (p ++ [x]).headD d = p.headD d := by
  cases p with
  | nil => exact absurd rfl h
  | cons a t => rfl

set_option maxRecDepth 4000 in
/-- Reading the code of the encoder's pending string `w` in the steady state
(decoder `prev = some p`): the decoder outputs `w`, adds the entry the
encoder inserted one miss earlier (catching its table up to `added`), and
widens exactly when the encoder's `nextCode` has filled the current width. -/
theorem decode_code_B (fuel : Nat) (s : LzwSt) (d : DecSt)
    (added : List (List Nat × Nat)) (p : List Nat) (cw : Nat) (r : List Bool)
    (hET : EncTable s added)
    (hclog : s.codeSize = Nat.clog 2 s.nextCode)
    (h4096 : s.nextCode ≤ 4096)
    (hwne : s.w ≠ [])
    (hdcs : d.codeSize = s.codeSize)
    (hp : d.prev = some p) (hpne : p ≠ [])
    (hkeys : added.map Prod.fst = d.dtab ++ [p ++ [s.w.headD 0]])
    (hcw : tableGet s.table s.w = some cw) :
    decodeLoop (fuel + 1) d (natBits cw d.codeSize ++ r) =
      (decodeLoop fuel
        { dtab := added.map Prod.fst,
          codeSize := if s.nextCode = 2 ^ s.codeSize ∧ s.codeSize < 12
                      then s.codeSize + 1 else s.codeSize,
          prev := some s.w } r).map fun out => s.w ++ out := by
  obtain ⟨dtab, dcs, dprev⟩ := d
  simp only at hdcs hkeys hp
  subst hp
  subst hdcs
  have hnext : s.nextCode = 258 + added.length := hET.2.1
  have hlen : added.length = dtab.length + 1 := by
    have h := congrArg List.length hkeys
    simpa using h
  obtain ⟨h9, h12, hn2⟩ := codeSize_bounds hclog (by omega) h4096
  obtain ⟨hcwlt, hcw256, hcw257⟩ := tableGet_val_lt hET hcw
  have h512 : (2 : Nat) ^ 9 ≤ 2 ^ s.codeSize := Nat.pow_le_pow_right (by omega) h9
  have h512b : (2 : Nat) ^ 9 = 512 := by norm_num
  have hcs256 : 256 < 2 ^ s.codeSize := by omega
  have hcw2 : cw < 2 ^ s.codeSize := by omega
  obtain ⟨hval, hdrop⟩ := @take_code_bits cw s.codeSize r hcw2
  rw [decodeLoop_succ_some, if_neg (code_bits_ne_nil r (pos_of_256_lt hcs256)), hval, hdrop,
    if_neg hcw256, if_neg hcw257]
  have hds : decStr ⟨dtab, s.codeSize, some p⟩ p cw = some s.w := by
    rcases cwCases hET hcw with ⟨hlit, hwlit⟩ | ⟨j, hj, hcj, hkey⟩
    · rw [decStr, if_pos hlit, hwlit]
    · have hge : ¬(cw < 256) := by omega
      have hge2 : ¬(cw < 258) := by omega
      have hkeyE : added[j].1 = s.w := by
        rw [← hkey, List.get_eq_getElem]
      by_cases hjd : j < dtab.length
      · have hsub : cw - 258 = j := by omega
        have hsublt : cw - 258 < (⟨dtab, s.codeSize, some p⟩ : DecSt).dtab.length := by
          simpa using (by omega : cw - 258 < dtab.length)
        rw [decStr, if_neg hge, if_neg hge2, dif_pos hsublt]
        congr 1
        have h1 : (added.map Prod.fst)[j]? = some s.w := by
          rw [List.getElem?_map, List.getElem?_eq_getElem hj]
          show some added[j].1 = some s.w
          rw [hkeyE]
        rw [hkeys, List.getElem?_append_left hjd] at h1
        have h3 : dtab[cw - 258]? = some s.w := by rw [hsub]; exact h1
        rw [List.getElem?_eq_getElem (by omega : cw - 258 < dtab.length)] at h3
        injection h3 with h3
      · have hjeq : j = dtab.length := by omega
        have hsubnlt : ¬(cw - 258 < (⟨dtab, s.codeSize, some p⟩ : DecSt).dtab.length) := by
          simpa using (by omega : ¬(cw - 258 < dtab.length))
        have hceq : cw = 258 + (⟨dtab, s.codeSize, some p⟩ : DecSt).dtab.length := by
          simpa using (by omega : cw = 258 + dtab.length)
        rw [decStr, if_neg hge, if_neg hge2, dif_neg hsubnlt, if_pos hceq]
        have h1 : (added.map Prod.fst)[j]? = some s.w := by
          rw [List.getElem?_map, List.getElem?_eq_getElem hj]
          show some added[j].1 = some s.w
          rw [hkeyE]
        rw [hkeys] at h1
        have h2 : (dtab ++ [p ++ [s.w.headD 0]])[j]? = some (p ++ [s.w.headD 0]) := by
          rw [hjeq, List.getElem?_append_right (le_refl _)]
          simp
        rw [h2] at h1
        injection h1 with h1
        have hw_eq : s.w = p ++ [s.w.headD 0] := h1.symm
        have hhd : s.w.headD 0 = p.headD 0 := by
          conv_lhs => rw [hw_eq]
          exact headD_append_ne_nil _ _ hpne
        rw [hhd] at hw_eq
        show some (p ++ [p.headD 0]) = some s.w
        rw [← hw_eq]
  rw [hds]
  simp only [Option.some_bind]
  have hguard : 258 + dtab.length < 4096 := by omega
  rw [if_pos (by simpa using hguard)]
  have hcond : (258 + (dtab ++ [p ++ [s.w.headD 0]]).length = 2 ^ s.codeSize ∧ s.codeSize < 12)
      ↔ (s.nextCode = 2 ^ s.codeSize ∧ s.codeSize < 12) := by
    rw [List.length_append]
    constructor
    · rintro ⟨ha, hb⟩
      refine ⟨?_, hb⟩
      simp only [List.length_cons, List.length_nil] at ha
      omega
    · rintro ⟨ha, hb⟩
      refine ⟨?_, hb⟩
      simp only [List.length_cons, List.length_nil]
      omega
  rw [if_congr hcond rfl rfl, ← hkeys]


/-! ## Lemmas: encoder steps -/

theorem writeBits_table_eq (s : LzwSt) (code size : Nat) :
    (writeBits s code size).table = s.table := rfl

theorem writeBits_codeSize_eq (s : LzwSt) (code size : Nat) :
    (writeBits s code size).codeSize = s.codeSize := rfl

theorem writeBits_nextCode_eq (s : LzwSt) (code size : Nat) :
    (writeBits s code size).nextCode = s.nextCode := rfl

theorem writeBits_w_eq (s : LzwSt) (code size : Nat) :
    (writeBits s code size).w = s.w := rfl

theorem writeBits_trace_eq (s : LzwSt) (code size : Nat) :
    (writeBits s code size).trace = s.trace ++ [(code, size, s.nextCode)] := rfl

theorem lzwStep_match (s : LzwSt) (k : Nat)
    (h : (tableGet s.table (s.w ++ [k])).isSome = true) :
    lzwStep 256 8 s k = some { s with w := s.w ++ [k] } := by
  rw [lzwStep, if_pos h]

theorem lzwStep_miss_insert (s : LzwSt) (k cw : Nat)
    (hmiss : (tableGet s.table (s.w ++ [k])).isSome = false)
    (hcw : tableGet s.table s.w = some cw) (hroom : s.nextCode < 4096) :
    lzwStep 256 8 s k = some
      { table := s.table ++ [(s.w ++ [k], s.nextCode)],
        codeSize := if s.nextCode + 1 > (1 <<< s.codeSize) ∧ s.codeSize < 12
                    then s.codeSize + 1 else s.codeSize,
        nextCode := s.nextCode + 1,
        w := [k],
        buffer := (writeBits s cw s.codeSize).buffer,
        bufferLen := (writeBits s cw s.codeSize).bufferLen,
        output := (writeBits s cw s.codeSize).output,
        trace := (writeBits s cw s.codeSize).trace } := by
  rw [lzwStep, if_neg (by simp [hmiss])]
  simp only [hcw, Option.some_bind, writeBits_table_eq, writeBits_codeSize_eq,
    writeBits_nextCode_eq, writeBits_w_eq]
  rw [if_pos hroom]
  by_cases hwid : s.nextCode + 1 > (1 <<< s.codeSize) ∧ s.codeSize < 12
  · rw [if_pos hwid, if_pos hwid]
  · rw [if_neg hwid, if_neg hwid]

theorem lzwStep_miss_full (s : LzwSt) (k cw : Nat)
    (hmiss : (tableGet s.table (s.w ++ [k])).isSome = false)
    (hcw : tableGet s.table s.w = some cw) (hroom : ¬(s.nextCode < 4096)) :
    lzwStep 256 8 s k = some
      { table := initTable 256,
        codeSize := 9,
        nextCode := 258,
        w := [k],
        buffer := (writeBits (writeBits s cw s.codeSize) 256 (writeBits s cw s.codeSize).codeSize).buffer,
        bufferLen := (writeBits (writeBits s cw s.codeSize) 256 (writeBits s cw s.codeSize).codeSize).bufferLen,
        output := (writeBits (writeBits s cw s.codeSize) 256 (writeBits s cw s.codeSize).codeSize).output,
        trace := (writeBits (writeBits s cw s.codeSize) 256 (writeBits s cw s.codeSize).codeSize).trace } := by
  rw [lzwStep, if_neg (by simp [hmiss])]
  simp only [hcw, Option.some_bind, writeBits_table_eq, writeBits_codeSize_eq,
    writeBits_nextCode_eq, writeBits_w_eq]
  rw [if_neg hroom]


/-! ## Lemmas: invariant preservation -/

theorem inv_match (s : LzwSt) (d : DecSt) (added : List (List Nat × Nat)) (k : Nat)
    (hInv : Inv s d added) (hk : k < 256)
    (hmatch : (tableGet s.table (s.w ++ [k])).isSome = true) :
    Inv { s with w := s.w ++ [k] } d added := by
  obtain ⟨hET, hclog, h4096, hwne, hwlt, hwsome, hbuf, hdcs, hlink⟩ := hInv
  refine ⟨hET, hclog, h4096, by simp, ?_, ?_, hbuf, hdcs, ?_⟩
  · intro x hx
    rcases List.mem_append.mp hx with hx | hx
    · exact hwlt x hx
    · simp at hx; omega
  · simpa using hmatch
  · rcases hlink with ⟨hadded, hdtab, hprev, hwlen⟩ | ⟨p, hprev, hpne, hkeys⟩
    · exfalso
      obtain ⟨htab, _, _, _, _⟩ := hET
      rw [htab, hadded, List.append_nil,
        initTable_none_of_long 256 (by
          simp only [List.length_append, List.length_cons, List.length_nil]
          intro hcon
          exact hwne (List.eq_nil_of_length_eq_zero (by omega)))] at hmatch
      simp at hmatch
    · right
      refine ⟨p, hprev, hpne, ?_⟩
      show added.map Prod.fst = d.dtab ++ [p ++ [(s.w ++ [k]).headD 0]]
      rw [headD_append_ne_nil k 0 hwne]
      exact hkeys

theorem inv_miss_insert (s : LzwSt) (d : DecSt) (added : List (List Nat × Nat)) (k cw : Nat)
    (hInv : Inv s d added) (hk : k < 256)
    (hmiss : (tableGet s.table (s.w ++ [k])).isSome = false)
    (hcw : tableGet s.table s.w = some cw)
    (hroom : s.nextCode < 4096) :
    Inv { table := s.table ++ [(s.w ++ [k], s.nextCode)],
          codeSize := if s.nextCode + 1 > (1 <<< s.codeSize) ∧ s.codeSize < 12
                      then s.codeSize + 1 else s.codeSize,
          nextCode := s.nextCode + 1,
          w := [k],
          buffer := (writeBits s cw s.codeSize).buffer,
          bufferLen := (writeBits s cw s.codeSize).bufferLen,
          output := (writeBits s cw s.codeSize).output,
          trace := (writeBits s cw s.codeSize).trace }
        { dtab := added.map Prod.fst,
          codeSize := if s.nextCode = 2 ^ s.codeSize ∧ s.codeSize < 12
                      then s.codeSize + 1 else s.codeSize,
          prev := some s.w }
        (added ++ [(s.w ++ [k], s.nextCode)]) := by
  obtain ⟨⟨htab, hnext, hsnd, hent, hnodup⟩, hclog, h4096, hwne, hwlt, hwsome, hbuf, hdcs, hlink⟩ := hInv
  obtain ⟨h9, h12, hn2⟩ := codeSize_bounds hclog (by omega) h4096
  have h2cs : (1 : Nat) <<< s.codeSize = 2 ^ s.codeSize := Nat.one_shiftLeft _
  have hwpos : 0 < s.w.length := List.length_pos.mpr hwne
  have hmiss' : tableGet s.table (s.w ++ [k]) = none := by
    cases h : tableGet s.table (s.w ++ [k]) with
    | none => rfl
    | some v => rw [h] at hmiss; simp at hmiss
  obtain ⟨hcwn, _, _⟩ := tableGet_val_lt ⟨htab, hnext, hsnd, hent, hnodup⟩ hcw
  refine ⟨⟨?_, ?_, ?_, ?_, ?_⟩, ?_, ?_, ?_, ?_, ?_, ?_, ?_, ?_⟩
  · show s.table ++ [(s.w ++ [k], s.nextCode)] = initTable 256 ++ (added ++ [(s.w ++ [k], s.nextCode)])
    rw [htab, List.append_assoc]
  · show s.nextCode + 1 = 258 + (added ++ [(s.w ++ [k], s.nextCode)]).length
    simp only [List.length_append, List.length_cons, List.length_nil]
    omega
  · show (added ++ [(s.w ++ [k], s.nextCode)]).map Prod.snd
      = List.range' 258 ((added ++ [(s.w ++ [k], s.nextCode)]).length)
    rw [List.map_append, hsnd]
    simp only [List.map_cons, List.map_nil, List.length_append, List.length_cons,
      List.length_nil]
    rw [hnext, List.range'_1_concat]
  · intro e he
    rcases List.mem_append.mp he with he | he
    · exact hent e he
    · simp only [List.mem_cons, List.not_mem_nil, or_false] at he
      subst he
      refine ⟨by simp; omega, ?_⟩
      intro x hx
      rcases List.mem_append.mp hx with hx | hx
      · exact hwlt x hx
      · simp at hx; omega
  · show ((s.table ++ [(s.w ++ [k], s.nextCode)]).map Prod.fst).Nodup
    rw [List.map_append, List.nodup_append]
    refine ⟨hnodup, by simp, ?_⟩
    intro a ha hb
    simp only [List.map_cons, List.map_nil, List.mem_cons, List.not_mem_nil, or_false] at hb
    subst hb
    rw [tableGet_eq_none_iff] at hmiss'
    exact hmiss' ha
  · show (if s.nextCode + 1 > (1 <<< s.codeSize) ∧ s.codeSize < 12
          then s.codeSize + 1 else s.codeSize) = Nat.clog 2 (s.nextCode + 1)
    simp only [h2cs]
    exact clog2_insert_step hclog (by omega) hn2 hroom
  · show s.nextCode + 1 ≤ 4096
    omega
  · simp
  · intro x hx
    simp only [List.mem_cons, List.not_mem_nil, or_false] at hx
    omega
  · show (tableGet (s.table ++ [(s.w ++ [k], s.nextCode)]) [k]).isSome
    rw [htab, List.append_assoc,
      tableGet_append_left _ (initTable_lit hk)]
    rfl
  · obtain ⟨hb1, _⟩ := writeBits_spec s cw s.codeSize hbuf (by omega)
    exact hb1
  · show (if s.nextCode = 2 ^ s.codeSize ∧ s.codeSize < 12
          then s.codeSize + 1 else s.codeSize)
      = (if s.nextCode + 1 > (1 <<< s.codeSize) ∧ s.codeSize < 12
          then s.codeSize + 1 else s.codeSize)
    simp only [h2cs]
    have hiff : (s.nextCode = 2 ^ s.codeSize ∧ s.codeSize < 12)
        ↔ (s.nextCode + 1 > 2 ^ s.codeSize ∧ s.codeSize < 12) := by
      constructor
      · rintro ⟨a, b⟩; exact ⟨by omega, b⟩
      · rintro ⟨a, b⟩; exact ⟨by omega, b⟩
    exact if_congr hiff rfl rfl
  · right
    refine ⟨s.w, rfl, hwne, ?_⟩
    show (added ++ [(s.w ++ [k], s.nextCode)]).map Prod.fst
      = added.map Prod.fst ++ [s.w ++ [List.headD [k] 0]]
    rw [List.map_append]
    rfl

theorem inv_miss_full (s : LzwSt) (d : DecSt) (added : List (List Nat × Nat)) (k cw : Nat)
    (hInv : Inv s d added) (hk : k < 256)
    (hcw : tableGet s.table s.w = some cw) :
    Inv { table := initTable 256,
          codeSize := 9,
          nextCode := 258,
          w := [k],
          buffer := (writeBits (writeBits s cw s.codeSize) 256 (writeBits s cw s.codeSize).codeSize).buffer,
          bufferLen := (writeBits (writeBits s cw s.codeSize) 256 (writeBits s cw s.codeSize).codeSize).bufferLen,
          output := (writeBits (writeBits s cw s.codeSize) 256 (writeBits s cw s.codeSize).codeSize).output,
          trace := (writeBits (writeBits s cw s.codeSize) 256 (writeBits s cw s.codeSize).codeSize).trace }
        { dtab := [], codeSize := 9, prev := none }
        [] := by
  obtain ⟨hET, hclog, h4096, hwne, hwlt, hwsome, hbuf, hdcs, hlink⟩ := hInv
  obtain ⟨h9, h12, hn2⟩ := codeSize_bounds hclog (by rw [hET.2.1]; omega) h4096
  obtain ⟨hcwn, _, _⟩ := tableGet_val_lt hET hcw
  obtain ⟨hb1, _⟩ := writeBits_spec s cw s.codeSize hbuf (by omega)
  have h2cs : (256 : Nat) < 2 ^ s.codeSize := by
    have := Nat.pow_le_pow_right (by omega : 1 ≤ 2) h9
    have h512 : (2 : Nat) ^ 9 = 512 := by norm_num
    omega
  obtain ⟨hb2, _⟩ := writeBits_spec (writeBits s cw s.codeSize) 256
    (writeBits s cw s.codeSize).codeSize hb1 (by rw [writeBits_codeSize_eq]; omega)
  refine ⟨⟨?_, rfl, rfl, ?_, ?_⟩, ?_, by show (258 : Nat) ≤ 4096; omega, by simp, ?_, ?_,
    hb2, rfl, ?_⟩
  · rw [List.append_nil]
  · intro e he; simp at he
  · exact initTable_keys_nodup 256
  · show 9 = Nat.clog 2 258
    exact (@clog2_interval 8 258 (by norm_num) (by norm_num)).symm
  · intro x hx
    simp only [List.mem_cons, List.not_mem_nil, or_false] at hx
    omega
  · show (tableGet (initTable 256) [k]).isSome
    rw [initTable_lit hk]
    rfl
  · left
    exact ⟨rfl, rfl, rfl, rfl⟩

/-! ## The main encoder/decoder synchronisation induction -/

set_option maxRecDepth 8000 in
/-- From any invariant-linked pair of states, running the encoder loop on the
remaining symbols and then emitting the final pending-`w` code and
End-of-Information produces a bit stream the decoder consumes into exactly
`s.w ++ rest` (any zero padding after it is ignored). -/
theorem encoder_decoder (rest : List Nat) : ∀ (s : LzwSt) (d : DecSt)
    (added : List (List Nat × Nat)), Inv s d added → (∀ x ∈ rest, x < 256) →
    ∃ sF cw,
      rest.foldl (fun acc k => acc.bind fun st => lzwStep 256 8 st k) (some s) = some sF ∧
      tableGet sF.table sF.w = some cw ∧
      ∃ Δ : List Bool,
        bitsOf (writeBits (writeBits sF cw sF.codeSize) 257
          (writeBits sF cw sF.codeSize).codeSize) = bitsOf s ++ Δ ∧
        (writeBits (writeBits sF cw sF.codeSize) 257
          (writeBits sF cw sF.codeSize).codeSize).buffer <
          2 ^ (writeBits (writeBits sF cw sF.codeSize) 257
            (writeBits sF cw sF.codeSize).codeSize).bufferLen ∧
        (writeBits (writeBits sF cw sF.codeSize) 257
          (writeBits sF cw sF.codeSize).codeSize).bufferLen < 8 ∧
        ∀ fuel pad, Δ.length < fuel →
          decodeLoop fuel d (Δ ++ List.replicate pad false) = some (s.w ++ rest) := by
  induction rest with
  | nil =>
    intro s d added hInv hb
    obtain ⟨hET, hclog, h4096, hwne, hwlt, hwsome, hbuf, hdcs, hlink⟩ := hInv
    obtain ⟨h9, h12, hn2⟩ := codeSize_bounds hclog (by rw [hET.2.1]; omega) h4096
    have h512 : (2 : Nat) ^ 9 ≤ 2 ^ s.codeSize := Nat.pow_le_pow_right (by omega) h9
    have h512b : (2 : Nat) ^ 9 = 512 := by norm_num
    obtain ⟨cw, hcw⟩ := Option.isSome_iff_exists.mp hwsome
    obtain ⟨hcwn, hcw256, hcw257⟩ := tableGet_val_lt hET hcw
    have hcw2 : cw < 2 ^ s.codeSize := by omega
    obtain ⟨hb1, hbl1, hbits1, _⟩ := writeBits_spec s cw s.codeSize hbuf hcw2
    have hcs2 : (writeBits s cw s.codeSize).codeSize = s.codeSize := writeBits_codeSize_eq s cw s.codeSize
    obtain ⟨hb2, hbl2, hbits2, _⟩ := writeBits_spec (writeBits s cw s.codeSize) 257
      (writeBits s cw s.codeSize).codeSize hb1 (by rw [hcs2]; omega)
    refine ⟨s, cw, rfl, hcw, natBits cw s.codeSize ++ natBits 257 s.codeSize, ?_, hb2, hbl2, ?_⟩
    · rw [hbits2, hbits1, hcs2, List.append_assoc]
    · intro fuel pad hfuel
      have hlen : (natBits cw s.codeSize ++ natBits 257 s.codeSize).length = 2 * s.codeSize := by
        rw [List.length_append, natBits_length, natBits_length]; omega
      rw [hlen] at hfuel
      obtain ⟨f, rfl⟩ : ∃ f, fuel = f + 2 := ⟨fuel - 2, by omega⟩
      rw [List.append_assoc]
      rcases hlink with ⟨hadded, hdtab, hprev, hwlen⟩ | ⟨p, hprev, hpne, hkeys⟩
      · -- right after a Clear: the final code is a literal
        rcases cwCases hET hcw with ⟨hlit, hwlit⟩ | ⟨j, hj, _, _⟩
        · have hstep := decode_code_A (f + 1) d cw
            (natBits 257 s.codeSize ++ List.replicate pad false) hprev hlit (by rw [hdcs]; omega)
          rw [hdcs] at hstep
          rw [hstep]
          have heoi := decode_eoi f ⟨d.dtab, s.codeSize, some [cw]⟩ s.codeSize pad
            (by omega) (le_refl _)
          rw [heoi]
          rw [hwlit]
          rfl
        · rw [hadded] at hj
          simp at hj
      · -- steady state: the decoder adds the lagging entry before EOI
        have hstep := decode_code_B (f + 1) s d added p cw
          (natBits 257 s.codeSize ++ List.replicate pad false)
          hET hclog h4096 hwne hdcs hprev hpne hkeys hcw
        rw [hdcs] at hstep
        rw [hstep]
        have hcsle : s.codeSize ≤ (if s.nextCode = 2 ^ s.codeSize ∧ s.codeSize < 12
            then s.codeSize + 1 else s.codeSize) := by
          by_cases hc : s.nextCode = 2 ^ s.codeSize ∧ s.codeSize < 12
          · rw [if_pos hc]; omega
          · rw [if_neg hc]
        have heoi := decode_eoi f
          ({ dtab := added.map Prod.fst,
             codeSize := if s.nextCode = 2 ^ s.codeSize ∧ s.codeSize < 12
                         then s.codeSize + 1 else s.codeSize,
             prev := some s.w } : DecSt) s.codeSize pad (by omega) hcsle
        rw [heoi]
        rfl
  | cons k rest ih =>
    intro s d added hInv hb
    have hk : k < 256 := hb k (List.mem_cons_self k rest)
    have hb' : ∀ x ∈ rest, x < 256 := fun x hx => hb x (List.mem_cons_of_mem k hx)
    obtain ⟨hET, hclog, h4096, hwne, hwlt, hwsome, hbuf, hdcs, hlink⟩ := hInv
    have hInv : Inv s d added := ⟨hET, hclog, h4096, hwne, hwlt, hwsome, hbuf, hdcs, hlink⟩
    obtain ⟨h9, h12, hn2⟩ := codeSize_bounds hclog (by rw [hET.2.1]; omega) h4096
    have h512 : (2 : Nat) ^ 9 ≤ 2 ^ s.codeSize := Nat.pow_le_pow_right (by omega) h9
    have h512b : (2 : Nat) ^ 9 = 512 := by norm_num
    rw [List.foldl_cons]
    by_cases hm : (tableGet s.table (s.w ++ [k])).isSome = true
    · -- w·k extends the current match: no emission, no decoder step
      have hInv2 := inv_match s d added k hInv hk hm
      obtain ⟨sF, cw, hfold, hcw, Δ, hbits, hzb, hzl, hdec⟩ :=
        ih { s with w := s.w ++ [k] } d added hInv2 hb'
      refine ⟨sF, cw, ?_, hcw, Δ, hbits, hzb, hzl, ?_⟩
      · rw [show (some s).bind (fun st => lzwStep 256 8 st k) = lzwStep 256 8 s k from rfl,
          lzwStep_match s k hm]
        exact hfold
      · intro fuel pad hfuel
        rw [hdec fuel pad hfuel]
        show some ((s.w ++ [k]) ++ rest) = _
        rw [List.append_assoc]
        rfl
    · have hm' : (tableGet s.table (s.w ++ [k])).isSome = false := by
        revert hm
        cases (tableGet s.table (s.w ++ [k])).isSome <;> simp
      obtain ⟨cw, hcw⟩ := Option.isSome_iff_exists.mp hwsome
      obtain ⟨hcwn, hcw256, hcw257⟩ := tableGet_val_lt hET hcw
      have hcw2 : cw < 2 ^ s.codeSize := by omega
      obtain ⟨hb1, hbl1, hbits1, _⟩ := writeBits_spec s cw s.codeSize hbuf hcw2
      by_cases hroom : s.nextCode < 4096
      · -- miss with room: emit code(w), insert w·k, decoder catches up one entry
        have hInv2 := inv_miss_insert s d added k cw hInv hk hm' hcw hroom
        obtain ⟨sF, cwF, hfold, hcwF, Δ, hbits, hzb, hzl, hdec⟩ := ih _ _ _ hInv2 hb'
        refine ⟨sF, cwF, ?_, hcwF, natBits cw s.codeSize ++ Δ, ?_, hzb, hzl, ?_⟩
        · rw [show (some s).bind (fun st => lzwStep 256 8 st k) = lzwStep 256 8 s k from rfl,
            lzwStep_miss_insert s k cw hm' hcw hroom]
          exact hfold
        · rw [hbits]
          show _ = bitsOf s ++ (natBits cw s.codeSize ++ Δ)
          rw [← List.append_assoc, ← hbits1]
          rfl
        · intro fuel pad hfuel
          rw [List.length_append, natBits_length] at hfuel
          obtain ⟨f, rfl⟩ : ∃ f, fuel = f + 1 := ⟨fuel - 1, by omega⟩
          rw [List.append_assoc]
          rcases hlink with ⟨hadded, hdtab, hprev, hwlen⟩ | ⟨p, hprev, hpne, hkeys⟩
          · -- first miss after a Clear: literal code
            rcases cwCases hET hcw with ⟨hlit, hwlit⟩ | ⟨j, hj, _, _⟩
            · have hstep := decode_code_A f d cw (Δ ++ List.replicate pad false)
                hprev hlit (by rw [hdcs]; omega)
              rw [hdcs] at hstep
              rw [hstep]
              have hd_eq : (⟨d.dtab, s.codeSize, some [cw]⟩ : DecSt) =
                  { dtab := added.map Prod.fst,
                    codeSize := if s.nextCode = 2 ^ s.codeSize ∧ s.codeSize < 12
                                then s.codeSize + 1 else s.codeSize,
                    prev := some s.w } := by
                have hne : ¬(s.nextCode = 2 ^ s.codeSize ∧ s.codeSize < 12) := by
                  rintro ⟨hc, -⟩
                  rw [hET.2.1, hadded] at hc
                  simp at hc
                  omega
                rw [if_neg hne, hdtab, hadded, hwlit]
                rfl
              rw [hd_eq, hdec f pad (by omega)]
              rw [hwlit]
              rfl
            · rw [hadded] at hj
              simp at hj
          · -- steady state miss
            have hstep := decode_code_B f s d added p cw (Δ ++ List.replicate pad false)
              hET hclog h4096 hwne hdcs hprev hpne hkeys hcw
            rw [hdcs] at hstep
            rw [hstep, hdec f pad (by omega)]
            show some (s.w ++ ([k] ++ rest)) = some (s.w ++ k :: rest)
            rfl
      · -- table full: emit code(w), emit Clear, reset
        have hInv2 := inv_miss_full s d added k cw hInv hk hcw
        obtain ⟨sF, cwF, hfold, hcwF, Δ, hbits, hzb, hzl, hdec⟩ := ih _ _ _ hInv2 hb'
        have hN : s.nextCode = 4096 := by omega
        have hcs12 : s.codeSize = 12 := by
          rw [hclog, hN]
          have : (4096 : Nat) = 2 ^ 12 := by norm_num
          rw [this, Nat.clog_pow 2 12 (by omega)]
        obtain ⟨hb2, hbl2, hbits2, _⟩ := writeBits_spec (writeBits s cw s.codeSize) 256
          (writeBits s cw s.codeSize).codeSize hb1 (by rw [writeBits_codeSize_eq]; omega)
        refine ⟨sF, cwF, ?_, hcwF,
          natBits cw s.codeSize ++ (natBits 256 s.codeSize ++ Δ), ?_, hzb, hzl, ?_⟩
        · rw [show (some s).bind (fun st => lzwStep 256 8 st k) = lzwStep 256 8 s k from rfl,
            lzwStep_miss_full s k cw hm' hcw hroom]
          exact hfold
        · rw [hbits]
          show _ = bitsOf s ++ (natBits cw s.codeSize ++ (natBits 256 s.codeSize ++ Δ))
          rw [← List.append_assoc, ← List.append_assoc, ← hbits1]
          have : bitsOf (writeBits s cw s.codeSize) ++ natBits 256 s.codeSize
              = bitsOf (writeBits (writeBits s cw s.codeSize) 256
                  (writeBits s cw s.codeSize).codeSize) := by
            rw [hbits2, writeBits_codeSize_eq]
          rw [this]
          rfl
        · intro fuel pad hfuel
          rw [List.length_append, List.length_append, natBits_length, natBits_length] at hfuel
          obtain ⟨f, rfl⟩ : ∃ f, fuel = f + 1 + 1 := ⟨fuel - 2, by omega⟩
          -- case A is impossible when the table is full
          rcases hlink with ⟨hadded, hdtab, hprev, hwlen⟩ | ⟨p, hprev, hpne, hkeys⟩
          · exfalso
            rw [hET.2.1, hadded] at hN
            simp at hN
          · rw [List.append_assoc]
            have hstep := decode_code_B (f + 1) s d added p cw
              (natBits 256 s.codeSize ++ Δ ++ List.replicate pad false)
              hET hclog h4096 hwne hdcs hprev hpne hkeys hcw
            rw [hdcs] at hstep
            rw [hstep]
            have hnwid : ¬(s.nextCode = 2 ^ s.codeSize ∧ s.codeSize < 12) := by
              rintro ⟨-, hc⟩
              omega
            rw [if_neg hnwid, List.append_assoc]
            have hclear := decode_clear f
              (⟨added.map Prod.fst, s.codeSize, some s.w⟩ : DecSt)
              (Δ ++ List.replicate pad false) (by show (256:Nat) < 2 ^ s.codeSize; omega)
            rw [hclear, hdec f pad (by omega)]
            show some (s.w ++ ([k] ++ rest)) = some (s.w ++ k :: rest)
            rfl
/-! ## Lemmas: the nearest-palette-index scan -/

theorem nearest_fold_spec (palette : List (Nat × Nat × Nat)) (p : Nat × Nat × Nat) :
    ∀ n, 0 < n →
    ∃ bi bd, (List.range n).foldl (nearestStep palette p) (0, none) = (bi, some bd) ∧
      bi < n ∧ sqDist p (palette.getD bi (0, 0, 0)) = bd ∧
      (∀ c, c < n → bd ≤ sqDist p (palette.getD c (0, 0, 0))) ∧
      (∀ c, c < n → sqDist p (palette.getD c (0, 0, 0)) = bd → bi ≤ c) := by
  intro n
  induction n with
  | zero => intro h; omega
  | succ n ih =>
    intro _
    rcases Nat.eq_zero_or_pos n with hn | hn
    · subst hn
      refine ⟨0, sqDist p (palette.getD 0 (0, 0, 0)), ?_, by omega, rfl, ?_, ?_⟩
      · simp [List.range_succ, nearestStep]
      · intro c hc; interval_cases c; exact le_refl _
      · intro c hc _; omega
    · obtain ⟨bi, bd, hfold, hbi, hdist, hmin, hties⟩ := ih hn
      rw [List.range_succ, List.foldl_append, hfold]
      by_cases hlt : sqDist p (palette.getD n (0, 0, 0)) < bd
      · refine ⟨n, sqDist p (palette.getD n (0, 0, 0)), ?_, by omega, rfl, ?_, ?_⟩
        · exact if_pos hlt
        · intro c hc
          rcases Nat.lt_succ_iff_lt_or_eq.mp hc with hc | hc
          · exact le_trans (le_of_lt hlt) (hmin c hc)
          · subst hc; exact le_refl _
        · intro c hc hceq
          rcases Nat.lt_succ_iff_lt_or_eq.mp hc with hc | hc
          · exact absurd hceq (by have := hmin c hc; omega)
          · omega
      · refine ⟨bi, bd, ?_, by omega, hdist, ?_, ?_⟩
        · exact if_neg hlt
        · intro c hc
          rcases Nat.lt_succ_iff_lt_or_eq.mp hc with hc | hc
          · exact hmin c hc
          · subst hc; omega
        · intro c hc hceq
          rcases Nat.lt_succ_iff_lt_or_eq.mp hc with hc | hc
          · exact hties c hc hceq
          · omega

theorem nearestIdx_spec (palette : List (Nat × Nat × Nat)) (p : Nat × Nat × Nat) :
    nearestIdx palette p < 256 ∧
    (∀ c, c < 256 →
      sqDist p (palette.getD (nearestIdx palette p) (0, 0, 0)) ≤
        sqDist p (palette.getD c (0, 0, 0))) ∧
    (∀ c, c < 256 →
      sqDist p (palette.getD c (0, 0, 0)) =
        sqDist p (palette.getD (nearestIdx palette p) (0, 0, 0)) →
      nearestIdx palette p ≤ c) := by
  obtain ⟨bi, bd, hfold, hbi, hdist, hmin, hties⟩ :=
    nearest_fold_spec palette p 256 (by omega)
  have hidx : nearestIdx palette p = bi := by rw [nearestIdx, hfold]
  rw [hidx]
  exact ⟨hbi, fun c hc => hdist ▸ hmin c hc, fun c hc h => hties c hc (hdist ▸ h)⟩

/-- Claim C6: for every pixel of the full buffer, the assigned index is in
range `0..255` and dereferences to the palette colour at minimal squared RGB
distance, ties resolved to the lowest index. -/
theorem quantize_nearest_index (data : List Nat) (width height i : Nat)
    (hlen : data.length = width * height * 4) (hi : i < width * height) :
    (quantize data width height).2.getD i 0 < 256 ∧
    (∀ c, c < 256 →
      sqDist (pixelAt data i)
        ((quantize data width height).1.getD ((quantize data width height).2.getD i 0) (0, 0, 0)) ≤
      sqDist (pixelAt data i) ((quantize data width height).1.getD c (0, 0, 0))) ∧
    (∀ c, c < 256 →
      sqDist (pixelAt data i) ((quantize data width height).1.getD c (0, 0, 0)) =
        sqDist (pixelAt data i)
          ((quantize data width height).1.getD ((quantize data width height).2.getD i 0) (0, 0, 0)) →
      (quantize data width height).2.getD i 0 ≤ c) := by
  have hgd : (quantize data width height).2.getD i 0 =
      nearestIdx (quantize data width height).1 (pixelAt data i) % 256 := by
    simp only [quantize]
    rw [List.getD_eq_getElem _ _ (by simpa using hi)]
    simp [hi]
  obtain ⟨hlt, hmin, hties⟩ :=
    nearestIdx_spec (quantize data width height).1 (pixelAt data i)
  rw [hgd, Nat.mod_eq_of_lt hlt]
  exact ⟨hlt, hmin, hties⟩

/-! ## Lemmas: quantizer output shape -/

theorem flatten_length_const {α β : Type} (l : List α) (f : α → List β)
    (h : ∀ a, (f a).length = 3) : ((l.map f).flatten).length = 3 * l.length := by
  induction l with
  | nil => simp
  | cons a t ih => simp [ih, h a]; ring

/-- Claim C7: `quantize` returns exactly 256 palette entries (black beyond
the median-cut colours), an index buffer of length `width*height` whose
entries are valid palette offsets, and a 768-byte Global Colour Table. -/
theorem quantize_shape (data : List Nat) (width height : Nat)
    (hpos : 0 < width * height) :
    (quantize data width height).1.length = 256 ∧
    (quantize data width height).2.length = width * height ∧
    (∀ x ∈ (quantize data width height).2, x < 256) ∧
    (∀ j, (medianCut (samplesOf data (width * height)) 8).length ≤ j → j < 256 →
      (quantize data width height).1.getD j (0, 0, 0) = (0, 0, 0)) ∧
    (gctBytes (quantize data width height).1).length = 768 := by
  refine ⟨?_, ?_, ?_, ?_, ?_⟩
  · simp only [quantize]
    rw [List.length_take, List.length_append, List.length_replicate]
    omega
  · simp [quantize]
  · simp only [quantize]
    intro x hx
    simp only [List.mem_map] at hx
    obtain ⟨i, _, hix⟩ := hx
    omega
  · intro j hj hj256
    simp only [quantize] at hj ⊢
    rw [List.getD_eq_getElem _ _ (by
      rw [List.length_take, List.length_append, List.length_replicate]; omega)]
    rw [List.getElem_take, List.getElem_append_right (by omega)]
    simp
  · rw [show (768 : Nat) = 3 * (List.range 256).length by simp]
    exact flatten_length_const _ _ (fun a => rfl)

/-! ## The round-trip theorem -/

/-- Unfolding of `lzwEncodeRun` on a nonempty input (minimum code size 8). -/
theorem lzwEncodeRun_cons (i0 : Nat) (rest : List Nat) :
    lzwEncodeRun (i0 :: rest) 8 =
      (rest.foldl (fun acc k => acc.bind fun st => lzwStep 256 8 st k)
        (some (writeBits
          { table := initTable 256, codeSize := 9, nextCode := 258, w := [i0],
            buffer := 0, bufferLen := 0, output := [], trace := [] } 256 9))).bind
        fun s => (tableGet s.table s.w).bind fun cw =>
          some (writeBits (writeBits s cw s.codeSize) 257
            (writeBits s cw s.codeSize).codeSize) := rfl

/-- The synchronisation invariant holds right after the initial Clear-code
emission, against a freshly initialised decoder. -/
theorem init_inv (i0 : Nat) (hi0 : i0 < 256) :
    Inv (writeBits
      { table := initTable 256, codeSize := 9, nextCode := 258, w := [i0],
        buffer := 0, bufferLen := 0, output := [], trace := [] } 256 9)
      { dtab := [], codeSize := 9, prev := none } [] := by
  obtain ⟨hbufA, hblA, hbitsA, htabA, hcsA, hncA, hwA, _⟩ :=
    writeBits_spec
      { table := initTable 256, codeSize := 9, nextCode := 258, w := [i0],
        buffer := 0, bufferLen := 0, output := [], trace := [] } 256 9
      (show (0:Nat) < 2 ^ 0 by decide) (by decide)
  refine ⟨⟨?_, ?_, rfl, ?_, ?_⟩, ?_, ?_, ?_, ?_, ?_, hbufA, ?_, ?_⟩
  · rw [htabA, List.append_nil]
  · rw [hncA]; rfl
  · intro e he; exact absurd he (List.not_mem_nil e)
  · rw [htabA]; exact initTable_keys_nodup 256
  · rw [hcsA, hncA]
    show (9 : Nat) = Nat.clog 2 258
    exact (clog2_interval (by decide) (by decide)).symm
  · rw [hncA]; show (258:Nat) ≤ 4096; decide
  · rw [hwA]; exact List.cons_ne_nil i0 []
  · rw [hwA]
    intro x hx
    rw [List.mem_singleton] at hx
    subst hx; exact hi0
  · rw [htabA, hwA]
    show (tableGet (initTable 256) [i0]).isSome
    rw [initTable_lit hi0]; rfl
  · rw [hcsA]
  · exact Or.inl ⟨rfl, rfl, rfl, by rw [hwA]; rfl⟩

theorem bytesToBits_single (b : Nat) : bytesToBits [b] = natBits b 8 := by
  simp [bytesToBits]

theorem bytesToBits_length (bytes : List Nat) :
    (bytesToBits bytes).length = 8 * bytes.length := by
  induction bytes with
  | nil => rfl
  | cons b t ih =>
    show (bytesToBits ([b] ++ t)).length = _
    rw [bytesToBits_append, List.length_append, ih, bytesToBits_single,
      natBits_length, List.length_cons]
    ring

/-- The LZW round trip: every nonempty list of bytes is encoded successfully
and decoded back to itself. -/
theorem lzw_roundtrip_main (indices : List Nat) (hne : indices ≠ [])
    (hb : ∀ x ∈ indices, x < 256) :
    ∃ bytes, lzwEncode indices 8 = some bytes ∧ lzwDecode bytes = some indices := by
  obtain ⟨i0, rest, rfl⟩ : ∃ i0 rest, indices = i0 :: rest := by
    cases indices with
    | nil => exact absurd rfl hne
    | cons a t => exact ⟨a, t, rfl⟩
  have hi0 : i0 < 256 := hb i0 (List.mem_cons_self i0 rest)
  have hrun := lzwEncodeRun_cons i0 rest
  obtain ⟨hbufA, hblA, hbitsA, htabA, hcsA, hncA, hwA, _⟩ :=
    writeBits_spec
      { table := initTable 256, codeSize := 9, nextCode := 258, w := [i0],
        buffer := 0, bufferLen := 0, output := [], trace := [] } 256 9
      (show (0:Nat) < 2 ^ 0 by decide) (by decide)
  obtain ⟨sF, cw, hfold, hcw, Δ, hbitsZ0, hbufZ, hblZ, hdec⟩ :=
    encoder_decoder rest _ { dtab := [], codeSize := 9, prev := none } [] (init_inv i0 hi0)
      (fun x hx => hb x (List.mem_cons_of_mem i0 hx))
  set SZ := writeBits (writeBits sF cw sF.codeSize) 257
    (writeBits sF cw sF.codeSize).codeSize with hSZ
  have hrunSome : lzwEncodeRun (i0 :: rest) 8 = some SZ := by
    rw [hrun, hfold]
    show (tableGet sF.table sF.w).bind _ = _
    rw [hcw]; rfl
  have hencodeEq : lzwEncode (i0 :: rest) 8 =
      some (if 0 < SZ.bufferLen then SZ.output ++ [SZ.buffer &&& 0xff] else SZ.output) := by
    rw [lzwEncode, hrunSome]
    rfl
  have hbitsZ : bitsOf SZ = natBits 256 9 ++ Δ := by
    rw [hbitsZ0, hbitsA]
    rfl
  set bytes := if 0 < SZ.bufferLen then SZ.output ++ [SZ.buffer &&& 0xff] else SZ.output
    with hbytesdef
  obtain ⟨padN, hpadlt, hbytesbits⟩ : ∃ padN, padN < 8 ∧
      bytesToBits bytes = natBits 256 9 ++ Δ ++ List.replicate padN false := by
    by_cases hbl : 0 < SZ.bufferLen
    · refine ⟨8 - SZ.bufferLen, by omega, ?_⟩
      have hmask : SZ.buffer &&& 0xff = SZ.buffer := by
        have h := Nat.and_pow_two_sub_one_eq_mod SZ.buffer 8
        have hlt : SZ.buffer < 256 := by
          have h28 : (2 : Nat) ^ SZ.bufferLen ≤ 2 ^ 8 :=
            Nat.pow_le_pow_right (by omega) (by omega)
          have : (2 : Nat) ^ 8 = 256 := by norm_num
          omega
        simpa [Nat.mod_eq_of_lt hlt] using h
      rw [hbytesdef, if_pos hbl, hmask, bytesToBits_append, bytesToBits_single,
        natBits_pad hbufZ (le_of_lt hblZ), ← List.append_assoc]
      rw [show bytesToBits SZ.output ++ natBits SZ.buffer SZ.bufferLen = bitsOf SZ from rfl,
        hbitsZ]
    · refine ⟨0, by omega, ?_⟩
      have hb0 : SZ.bufferLen = 0 := by omega
      have h2 := hbitsZ
      unfold bitsOf at h2
      rw [hb0, show natBits SZ.buffer 0 = [] from rfl, List.append_nil] at h2
      rw [hbytesdef, if_neg hbl, h2]
      simp
  have hlen8 : 8 * bytes.length = 9 + (Δ.length + padN) := by
    have hL := bytesToBits_length bytes
    rw [hbytesbits, List.length_append, List.length_append, natBits_length,
      List.length_replicate] at hL
    omega
  refine ⟨bytes, hencodeEq, ?_⟩
  unfold lzwDecode
  rw [hbytesbits, List.append_assoc]
  have hdc : decodeLoop (bytes.length * 8 + 1) { dtab := [], codeSize := 9, prev := none }
      (natBits 256 9 ++ (Δ ++ List.replicate padN false)) =
      decodeLoop (bytes.length * 8) { dtab := [], codeSize := 9, prev := none }
        (Δ ++ List.replicate padN false) :=
    decode_clear (bytes.length * 8) _ _ (by decide)
  rw [hdc, hdec (bytes.length * 8) padN (by omega), hwA]
  rfl


/-- Every code emitted inside the main loop is written at the width
`clog2 nextCode` a standard decoder tracks, with `nextCode` in `258..4096`;
the loop also preserves the synchronisation invariant. -/
theorem trace_all (rest : List Nat) : ∀ (s : LzwSt) (d : DecSt)
    (added : List (List Nat × Nat)), Inv s d added → (∀ x ∈ rest, x < 256) →
    ∃ sF dF addedF,
      rest.foldl (fun acc k => acc.bind fun st => lzwStep 256 8 st k) (some s) = some sF ∧
      Inv sF dF addedF ∧
      ∃ tr, sF.trace = s.trace ++ tr ∧ TraceOK tr := by
  induction rest with
  | nil =>
    intro s d added hInv _
    exact ⟨s, d, added, rfl, hInv,
      [], (List.append_nil _).symm, fun e he => absurd he (List.not_mem_nil e)⟩
  | cons k rest ih =>
    intro s d added hInv hb
    have hk : k < 256 := hb k (List.mem_cons_self k rest)
    have hbrest : ∀ x ∈ rest, x < 256 := fun x hx => hb x (List.mem_cons_of_mem k hx)
    obtain ⟨hET, hclog, h4096, hwne, hwlt, hwsome, hbuf, hdcs, hlink⟩ := hInv
    have hInv' : Inv s d added := ⟨hET, hclog, h4096, hwne, hwlt, hwsome, hbuf, hdcs, hlink⟩
    have hlo : 258 ≤ s.nextCode := by rw [hET.2.1]; omega
    rw [List.foldl_cons]
    by_cases hmatch : (tableGet s.table (s.w ++ [k])).isSome = true
    · have hstep := lzwStep_match s k hmatch
      rw [show (some s).bind (fun st => lzwStep 256 8 st k) = lzwStep 256 8 s k from rfl,
        hstep]
      obtain ⟨sF, dF, addedF, hfold, hinvF, tr, htr, hok⟩ :=
        ih { s with w := s.w ++ [k] } d added (inv_match s d added k hInv' hk hmatch) hbrest
      exact ⟨sF, dF, addedF, hfold, hinvF, tr, htr.trans rfl, hok⟩
    · have hmiss : (tableGet s.table (s.w ++ [k])).isSome = false := by
        simpa using hmatch
      obtain ⟨cw, hcw⟩ := Option.isSome_iff_exists.mp hwsome
      by_cases hroom : s.nextCode < 4096
      · have hstep := lzwStep_miss_insert s k cw hmiss hcw hroom
        rw [show (some s).bind (fun st => lzwStep 256 8 st k) = lzwStep 256 8 s k from rfl,
          hstep]
        obtain ⟨sF, dF, addedF, hfold, hinvF, tr, htr, hok⟩ :=
          ih _ _ _ (inv_miss_insert s d added k cw hInv' hk hmiss hcw hroom) hbrest
        refine ⟨sF, dF, addedF, hfold, hinvF, (cw, s.codeSize, s.nextCode) :: tr, ?_, ?_⟩
        · rw [htr]
          show (writeBits s cw s.codeSize).trace ++ tr = _
          rw [writeBits_trace_eq, List.append_assoc]
          rfl
        · intro e he
          rcases List.mem_cons.mp he with he | he
          · subst he
            exact ⟨hclog, hlo, h4096⟩
          · exact hok e he
      · have hstep := lzwStep_miss_full s k cw hmiss hcw hroom
        rw [show (some s).bind (fun st => lzwStep 256 8 st k) = lzwStep 256 8 s k from rfl,
          hstep]
        obtain ⟨sF, dF, addedF, hfold, hinvF, tr, htr, hok⟩ :=
          ih _ _ _ (inv_miss_full s d added k cw hInv' hk hcw) hbrest
        refine ⟨sF, dF, addedF, hfold, hinvF,
          (cw, s.codeSize, s.nextCode) :: (256, s.codeSize, s.nextCode) :: tr, ?_, ?_⟩
        · rw [htr]
          show (writeBits (writeBits s cw s.codeSize) 256
            (writeBits s cw s.codeSize).codeSize).trace ++ tr = _
          rw [writeBits_trace_eq, writeBits_trace_eq, writeBits_codeSize_eq,
            writeBits_nextCode_eq, List.append_assoc, List.append_assoc]
          rfl
        · intro e he
          rcases List.mem_cons.mp he with he | he
          · subst he
            exact ⟨hclog, hlo, h4096⟩
          · rcases List.mem_cons.mp he with he | he
            · subst he
              exact ⟨hclog, hlo, h4096⟩
            · exact hok e he


/-! ## Claims -/

set_option maxRecDepth 10000 in
/-- Claim C1: for every non-empty index buffer with `minCodeSize = 8`,
decoding `lzwEncode`'s output with a standard GIF LZW decoder reproduces the
input exactly; in particular for `[0,0,0,1,1,0,0,0,0,1,1]`. -/
theorem claim_C1_roundtrip (indices : List Nat) (hne : indices ≠ [])
    (hb : ∀ x ∈ indices, x < 256) :
    (∃ bytes, lzwEncode indices 8 = some bytes ∧ lzwDecode bytes = some indices) ∧
    (lzwEncode [0,0,0,1,1,0,0,0,0,1,1] 8).bind lzwDecode =
      some [0,0,0,1,1,0,0,0,0,1,1] :=
  ⟨lzw_roundtrip_main indices hne hb, by decide⟩

set_option maxRecDepth 10000 in
theorem claim_C1_roundtrip_witness :
    (∃ bytes, lzwEncode [0,0,0,1,1,0,0,0,0,1,1] 8 = some bytes ∧
      lzwDecode bytes = some [0,0,0,1,1,0,0,0,0,1,1]) ∧
    (lzwEncode [0,0,0,1,1,0,0,0,0,1,1] 8).bind lzwDecode =
      some [0,0,0,1,1,0,0,0,0,1,1] :=
  claim_C1_roundtrip [0,0,0,1,1,0,0,0,0,1,1] (by decide) (by decide)

/-- Claim C3: the first emitted code is the Clear code at width
`minCodeSize + 1 = 9` with `nextCode = 258`, and every emitted code is
written at the width a standard GIF decoder expects at that point
(`clog2 nextCode`, clamped to at most 12 bits and at least 9). -/
theorem claim_C3_code_widths (indices : List Nat) (hne : indices ≠ [])
    (hb : ∀ x ∈ indices, x < 256) :
    ∃ tr, lzwTrace indices 8 = some tr ∧
      tr.head? = some (256, 9, 258) ∧
      ∀ e ∈ tr, e.2.1 = Nat.clog 2 e.2.2 ∧ 9 ≤ e.2.1 ∧ e.2.1 ≤ 12 := by
  obtain ⟨i0, rest, rfl⟩ : ∃ i0 rest, indices = i0 :: rest := by
    cases indices with
    | nil => exact absurd rfl hne
    | cons a t => exact ⟨a, t, rfl⟩
  have hi0 : i0 < 256 := hb i0 (List.mem_cons_self i0 rest)
  obtain ⟨sF, dF, addedF, hfold, hinvF, tr0, htr0, hok⟩ :=
    trace_all rest _ { dtab := [], codeSize := 9, prev := none } [] (init_inv i0 hi0)
      (fun x hx => hb x (List.mem_cons_of_mem i0 hx))
  obtain ⟨hETF, hclogF, h4096F, hwneF, hwltF, hwsomeF, hbufF, hdcsF, hlinkF⟩ := hinvF
  obtain ⟨cw, hcw⟩ := Option.isSome_iff_exists.mp hwsomeF
  have hrunSome : lzwEncodeRun (i0 :: rest) 8 = some
      (writeBits (writeBits sF cw sF.codeSize) 257
        (writeBits sF cw sF.codeSize).codeSize) := by
    rw [lzwEncodeRun_cons, hfold]
    show (tableGet sF.table sF.w).bind _ = _
    rw [hcw]; rfl
  have hS1tr : (writeBits
      { table := initTable 256, codeSize := 9, nextCode := 258, w := [i0],
        buffer := 0, bufferLen := 0, output := [], trace := [] } 256 9).trace
      = [(256, 9, 258)] := rfl
  have htrZ : (writeBits (writeBits sF cw sF.codeSize) 257
      (writeBits sF cw sF.codeSize).codeSize).trace
      = sF.trace ++ [(cw, sF.codeSize, sF.nextCode), (257, sF.codeSize, sF.nextCode)] := by
    rw [writeBits_trace_eq, writeBits_trace_eq, writeBits_codeSize_eq,
      writeBits_nextCode_eq, List.append_assoc]
    rfl
  refine ⟨(256, 9, 258) ::
    (tr0 ++ [(cw, sF.codeSize, sF.nextCode), (257, sF.codeSize, sF.nextCode)]),
    ?_, rfl, ?_⟩
  · rw [lzwTrace, hrunSome]
    show some (writeBits (writeBits sF cw sF.codeSize) 257
      (writeBits sF cw sF.codeSize).codeSize).trace = _
    rw [htrZ, htr0, hS1tr]
    rfl
  · intro e he
    rcases List.mem_cons.mp he with he | he
    · subst he
      exact ⟨(clog2_interval (by decide) (by decide)).symm, by decide, by decide⟩
    · rcases List.mem_append.mp he with he | he
      · obtain ⟨hclogE, hloE, hhiE⟩ := hok e he
        obtain ⟨h9E, h12E, _⟩ := codeSize_bounds hclogE hloE hhiE
        exact ⟨hclogE, h9E, h12E⟩
      · have hloF : 258 ≤ sF.nextCode := by rw [hETF.2.1]; omega
        obtain ⟨h9F, h12F, _⟩ := codeSize_bounds hclogF hloF h4096F
        rcases List.mem_cons.mp he with he | he
        · subst he; exact ⟨hclogF, h9F, h12F⟩
        · rcases List.mem_cons.mp he with he | he
          · subst he; exact ⟨hclogF, h9F, h12F⟩
          · exact absurd he (List.not_mem_nil e)

theorem claim_C3_code_widths_witness :
    ∃ tr, lzwTrace [5] 8 = some tr ∧
      tr.head? = some (256, 9, 258) ∧
      ∀ e ∈ tr, e.2.1 = Nat.clog 2 e.2.2 ∧ 9 ≤ e.2.1 ∧ e.2.1 ≤ 12 :=
  claim_C3_code_widths [5] (by decide) (by decide)

/-- Claim C10: `lzwEncode` reads `indices[0]` unconditionally, so the empty
input reaches the guarded-indexing error branch of the embedding (`none`)
and produces no code stream, while every non-empty in-range input encodes
successfully. -/
theorem claim_C10_empty_read (indices : List Nat) :
    (indices = [] → lzwEncode indices 8 = none) ∧
    (indices ≠ [] → (∀ x ∈ indices, x < 256) → (lzwEncode indices 8).isSome = true) := by
  constructor
  · intro h; subst h; rfl
  · intro hne hb
    obtain ⟨bytes, he, _⟩ := lzw_roundtrip_main indices hne hb
    rw [he]; rfl

theorem claim_C10_empty_read_witness :
    lzwEncode [] 8 = none ∧ (lzwEncode [7] 8).isSome = true :=
  ⟨(claim_C10_empty_read []).1 rfl,
   (claim_C10_empty_read [7]).2 (by decide) (by decide)⟩


/-- Claim C4: on a dictionary miss with the table already full (4096
entries), the encoder emits the pending string's code and then a Clear code
at the current width, resets the dictionary to its seeded state and the code
width to `minCodeSize + 1 = 9`, and does not insert the candidate `w ++ [k]`.
-/
theorem claim_C4_table_full (s : LzwSt) (k cw : Nat) (hwne : s.w ≠ [])
    (hfull : s.nextCode = 4096)
    (hmiss : tableGet s.table (s.w ++ [k]) = none)
    (hcw : tableGet s.table s.w = some cw) :
    ∃ s', lzwStep 256 8 s k = some s' ∧
      s'.table = initTable 256 ∧
      s'.codeSize = 9 ∧
      s'.nextCode = 258 ∧
      s'.w = [k] ∧
      s'.trace = s.trace ++ [(cw, s.codeSize, s.nextCode), (256, s.codeSize, s.nextCode)] ∧
      tableGet s'.table (s.w ++ [k]) = none := by
  have hmiss' : (tableGet s.table (s.w ++ [k])).isSome = false := by rw [hmiss]; rfl
  have hroom : ¬(s.nextCode < 4096) := by omega
  refine ⟨_, lzwStep_miss_full s k cw hmiss' hcw hroom, rfl, rfl, rfl, rfl, ?_, ?_⟩
  · show (writeBits (writeBits s cw s.codeSize) 256
      (writeBits s cw s.codeSize).codeSize).trace = _
    rw [writeBits_trace_eq, writeBits_trace_eq, writeBits_codeSize_eq,
      writeBits_nextCode_eq, List.append_assoc]
    rfl
  · show tableGet (initTable 256) (s.w ++ [k]) = none
    apply initTable_none_of_long
    rw [List.length_append, List.length_cons, List.length_nil]
    have : s.w.length ≠ 0 := fun hc => hwne (List.eq_nil_of_length_eq_zero hc)
    omega

theorem claim_C4_table_full_witness :
    ∃ s', lzwStep 256 8
        { table := [([1], 90)], codeSize := 12, nextCode := 4096, w := [1],
          buffer := 0, bufferLen := 0, output := [], trace := [] } 2 = some s' ∧
      s'.table = initTable 256 ∧
      s'.codeSize = 9 ∧
      s'.nextCode = 258 ∧
      s'.w = [2] ∧
      s'.trace = [] ++ [(90, 12, 4096), (256, 12, 4096)] ∧
      tableGet s'.table ([1] ++ [2]) = none := by
  have h := claim_C4_table_full
    { table := [([1], 90)], codeSize := 12, nextCode := 4096, w := [1],
      buffer := 0, bufferLen := 0, output := [], trace := [] } 2 90
    (by decide) rfl (by decide) (by decide)
  exact h


/-- Claim C8: a single-element input `[k]` (minCodeSize 8) emits exactly
three codes in order — Clear, the literal `k`, End-of-Information — each at
width `minCodeSize + 1 = 9` bits, and the byte output is exactly those three
codes zero-padded to a whole byte. -/
theorem claim_C8_single (k : Nat) (hk : k < 256) :
    lzwTrace [k] 8 = some [(256, 9, 258), (k, 9, 258), (257, 9, 258)] ∧
    ∃ bytes padN, lzwEncode [k] 8 = some bytes ∧ padN < 8 ∧
      bytesToBits bytes = natBits 256 9 ++ natBits k 9 ++ natBits 257 9 ++
        List.replicate padN false := by
  obtain ⟨hbufA, hblA, hbitsA, htabA, hcsA, hncA, hwA, htrA⟩ :=
    writeBits_spec
      { table := initTable 256, codeSize := 9, nextCode := 258, w := [k],
        buffer := 0, bufferLen := 0, output := [], trace := [] } 256 9
      (show (0:Nat) < 2 ^ 0 by decide) (by decide)
  have h1 : ((writeBits
      { table := initTable 256, codeSize := 9, nextCode := 258, w := [k],
        buffer := 0, bufferLen := 0, output := [], trace := [] } 256 9)).codeSize = 9 := hcsA.trans rfl
  have h2 : ((writeBits (writeBits
      { table := initTable 256, codeSize := 9, nextCode := 258, w := [k],
        buffer := 0, bufferLen := 0, output := [], trace := [] } 256 9) k (writeBits
      { table := initTable 256, codeSize := 9, nextCode := 258, w := [k],
        buffer := 0, bufferLen := 0, output := [], trace := [] } 256 9).codeSize)).codeSize = 9 :=
    (writeBits_codeSize_eq _ _ _).trans h1
  have hklt : k < 2 ^ ((writeBits
      { table := initTable 256, codeSize := 9, nextCode := 258, w := [k],
        buffer := 0, bufferLen := 0, output := [], trace := [] } 256 9)).codeSize := by
    rw [h1]; show k < 512; omega
  obtain ⟨hbufB, hblB, hbitsB, _, _, _, _, _⟩ :=
    writeBits_spec (writeBits
      { table := initTable 256, codeSize := 9, nextCode := 258, w := [k],
        buffer := 0, bufferLen := 0, output := [], trace := [] } 256 9) k ((writeBits
      { table := initTable 256, codeSize := 9, nextCode := 258, w := [k],
        buffer := 0, bufferLen := 0, output := [], trace := [] } 256 9)).codeSize hbufA hklt
  obtain ⟨hbufC, hblC, hbitsC, _⟩ :=
    writeBits_spec (writeBits (writeBits
      { table := initTable 256, codeSize := 9, nextCode := 258, w := [k],
        buffer := 0, bufferLen := 0, output := [], trace := [] } 256 9) k (writeBits
      { table := initTable 256, codeSize := 9, nextCode := 258, w := [k],
        buffer := 0, bufferLen := 0, output := [], trace := [] } 256 9).codeSize) 257 ((writeBits (writeBits
      { table := initTable 256, codeSize := 9, nextCode := 258, w := [k],
        buffer := 0, bufferLen := 0, output := [], trace := [] } 256 9) k (writeBits
      { table := initTable 256, codeSize := 9, nextCode := 258, w := [k],
        buffer := 0, bufferLen := 0, output := [], trace := [] } 256 9).codeSize)).codeSize hbufB
      (by rw [h2]; show (257:Nat) < 512; decide)
  have hcwA : tableGet ((writeBits
      { table := initTable 256, codeSize := 9, nextCode := 258, w := [k],
        buffer := 0, bufferLen := 0, output := [], trace := [] } 256 9)).table ((writeBits
      { table := initTable 256, codeSize := 9, nextCode := 258, w := [k],
        buffer := 0, bufferLen := 0, output := [], trace := [] } 256 9)).w = some k := by
    rw [htabA, hwA]
    exact initTable_lit hk
  have hrunSome : lzwEncodeRun [k] 8 = some (writeBits (writeBits (writeBits
      { table := initTable 256, codeSize := 9, nextCode := 258, w := [k],
        buffer := 0, bufferLen := 0, output := [], trace := [] } 256 9) k (writeBits
      { table := initTable 256, codeSize := 9, nextCode := 258, w := [k],
        buffer := 0, bufferLen := 0, output := [], trace := [] } 256 9).codeSize) 257 (writeBits (writeBits
      { table := initTable 256, codeSize := 9, nextCode := 258, w := [k],
        buffer := 0, bufferLen := 0, output := [], trace := [] } 256 9) k (writeBits
      { table := initTable 256, codeSize := 9, nextCode := 258, w := [k],
        buffer := 0, bufferLen := 0, output := [], trace := [] } 256 9).codeSize).codeSize) := by
    rw [lzwEncodeRun_cons k []]
    show (tableGet ((writeBits
      { table := initTable 256, codeSize := 9, nextCode := 258, w := [k],
        buffer := 0, bufferLen := 0, output := [], trace := [] } 256 9)).table ((writeBits
      { table := initTable 256, codeSize := 9, nextCode := 258, w := [k],
        buffer := 0, bufferLen := 0, output := [], trace := [] } 256 9)).w).bind _ = _
    rw [hcwA]
    rfl
  have htrace : lzwTrace [k] 8 = some [(256, 9, 258), (k, 9, 258), (257, 9, 258)] := by
    rw [lzwTrace, hrunSome]
    show some ((writeBits (writeBits (writeBits
      { table := initTable 256, codeSize := 9, nextCode := 258, w := [k],
        buffer := 0, bufferLen := 0, output := [], trace := [] } 256 9) k (writeBits
      { table := initTable 256, codeSize := 9, nextCode := 258, w := [k],
        buffer := 0, bufferLen := 0, output := [], trace := [] } 256 9).codeSize) 257 (writeBits (writeBits
      { table := initTable 256, codeSize := 9, nextCode := 258, w := [k],
        buffer := 0, bufferLen := 0, output := [], trace := [] } 256 9) k (writeBits
      { table := initTable 256, codeSize := 9, nextCode := 258, w := [k],
        buffer := 0, bufferLen := 0, output := [], trace := [] } 256 9).codeSize).codeSize)).trace = _
    simp only [writeBits_trace_eq, writeBits_codeSize_eq, writeBits_nextCode_eq]
    rfl
  have hbitsZ : bitsOf (writeBits (writeBits (writeBits
      { table := initTable 256, codeSize := 9, nextCode := 258, w := [k],
        buffer := 0, bufferLen := 0, output := [], trace := [] } 256 9) k (writeBits
      { table := initTable 256, codeSize := 9, nextCode := 258, w := [k],
        buffer := 0, bufferLen := 0, output := [], trace := [] } 256 9).codeSize) 257 (writeBits (writeBits
      { table := initTable 256, codeSize := 9, nextCode := 258, w := [k],
        buffer := 0, bufferLen := 0, output := [], trace := [] } 256 9) k (writeBits
      { table := initTable 256, codeSize := 9, nextCode := 258, w := [k],
        buffer := 0, bufferLen := 0, output := [], trace := [] } 256 9).codeSize).codeSize) = natBits 256 9 ++ natBits k 9 ++ natBits 257 9 := by
    rw [hbitsC, hbitsB, hbitsA, h2, h1]
    rfl
  have hencodeEq : lzwEncode [k] 8 = some
      (if 0 < ((writeBits (writeBits (writeBits
      { table := initTable 256, codeSize := 9, nextCode := 258, w := [k],
        buffer := 0, bufferLen := 0, output := [], trace := [] } 256 9) k (writeBits
      { table := initTable 256, codeSize := 9, nextCode := 258, w := [k],
        buffer := 0, bufferLen := 0, output := [], trace := [] } 256 9).codeSize) 257 (writeBits (writeBits
      { table := initTable 256, codeSize := 9, nextCode := 258, w := [k],
        buffer := 0, bufferLen := 0, output := [], trace := [] } 256 9) k (writeBits
      { table := initTable 256, codeSize := 9, nextCode := 258, w := [k],
        buffer := 0, bufferLen := 0, output := [], trace := [] } 256 9).codeSize).codeSize)).bufferLen
       then ((writeBits (writeBits (writeBits
      { table := initTable 256, codeSize := 9, nextCode := 258, w := [k],
        buffer := 0, bufferLen := 0, output := [], trace := [] } 256 9) k (writeBits
      { table := initTable 256, codeSize := 9, nextCode := 258, w := [k],
        buffer := 0, bufferLen := 0, output := [], trace := [] } 256 9).codeSize) 257 (writeBits (writeBits
      { table := initTable 256, codeSize := 9, nextCode := 258, w := [k],
        buffer := 0, bufferLen := 0, output := [], trace := [] } 256 9) k (writeBits
      { table := initTable 256, codeSize := 9, nextCode := 258, w := [k],
        buffer := 0, bufferLen := 0, output := [], trace := [] } 256 9).codeSize).codeSize)).output ++ [((writeBits (writeBits (writeBits
      { table := initTable 256, codeSize := 9, nextCode := 258, w := [k],
        buffer := 0, bufferLen := 0, output := [], trace := [] } 256 9) k (writeBits
      { table := initTable 256, codeSize := 9, nextCode := 258, w := [k],
        buffer := 0, bufferLen := 0, output := [], trace := [] } 256 9).codeSize) 257 (writeBits (writeBits
      { table := initTable 256, codeSize := 9, nextCode := 258, w := [k],
        buffer := 0, bufferLen := 0, output := [], trace := [] } 256 9) k (writeBits
      { table := initTable 256, codeSize := 9, nextCode := 258, w := [k],
        buffer := 0, bufferLen := 0, output := [], trace := [] } 256 9).codeSize).codeSize)).buffer &&& 0xff]
       else ((writeBits (writeBits (writeBits
      { table := initTable 256, codeSize := 9, nextCode := 258, w := [k],
        buffer := 0, bufferLen := 0, output := [], trace := [] } 256 9) k (writeBits
      { table := initTable 256, codeSize := 9, nextCode := 258, w := [k],
        buffer := 0, bufferLen := 0, output := [], trace := [] } 256 9).codeSize) 257 (writeBits (writeBits
      { table := initTable 256, codeSize := 9, nextCode := 258, w := [k],
        buffer := 0, bufferLen := 0, output := [], trace := [] } 256 9) k (writeBits
      { table := initTable 256, codeSize := 9, nextCode := 258, w := [k],
        buffer := 0, bufferLen := 0, output := [], trace := [] } 256 9).codeSize).codeSize)).output) := by
    rw [lzwEncode, hrunSome]
    rfl
  refine ⟨htrace, ?_⟩
  by_cases hbl : 0 < ((writeBits (writeBits (writeBits
      { table := initTable 256, codeSize := 9, nextCode := 258, w := [k],
        buffer := 0, bufferLen := 0, output := [], trace := [] } 256 9) k (writeBits
      { table := initTable 256, codeSize := 9, nextCode := 258, w := [k],
        buffer := 0, bufferLen := 0, output := [], trace := [] } 256 9).codeSize) 257 (writeBits (writeBits
      { table := initTable 256, codeSize := 9, nextCode := 258, w := [k],
        buffer := 0, bufferLen := 0, output := [], trace := [] } 256 9) k (writeBits
      { table := initTable 256, codeSize := 9, nextCode := 258, w := [k],
        buffer := 0, bufferLen := 0, output := [], trace := [] } 256 9).codeSize).codeSize)).bufferLen
  · refine ⟨_, 8 - ((writeBits (writeBits (writeBits
      { table := initTable 256, codeSize := 9, nextCode := 258, w := [k],
        buffer := 0, bufferLen := 0, output := [], trace := [] } 256 9) k (writeBits
      { table := initTable 256, codeSize := 9, nextCode := 258, w := [k],
        buffer := 0, bufferLen := 0, output := [], trace := [] } 256 9).codeSize) 257 (writeBits (writeBits
      { table := initTable 256, codeSize := 9, nextCode := 258, w := [k],
        buffer := 0, bufferLen := 0, output := [], trace := [] } 256 9) k (writeBits
      { table := initTable 256, codeSize := 9, nextCode := 258, w := [k],
        buffer := 0, bufferLen := 0, output := [], trace := [] } 256 9).codeSize).codeSize)).bufferLen, hencodeEq, by omega, ?_⟩
    have hmask : ((writeBits (writeBits (writeBits
      { table := initTable 256, codeSize := 9, nextCode := 258, w := [k],
        buffer := 0, bufferLen := 0, output := [], trace := [] } 256 9) k (writeBits
      { table := initTable 256, codeSize := 9, nextCode := 258, w := [k],
        buffer := 0, bufferLen := 0, output := [], trace := [] } 256 9).codeSize) 257 (writeBits (writeBits
      { table := initTable 256, codeSize := 9, nextCode := 258, w := [k],
        buffer := 0, bufferLen := 0, output := [], trace := [] } 256 9) k (writeBits
      { table := initTable 256, codeSize := 9, nextCode := 258, w := [k],
        buffer := 0, bufferLen := 0, output := [], trace := [] } 256 9).codeSize).codeSize)).buffer &&& 0xff = ((writeBits (writeBits (writeBits
      { table := initTable 256, codeSize := 9, nextCode := 258, w := [k],
        buffer := 0, bufferLen := 0, output := [], trace := [] } 256 9) k (writeBits
      { table := initTable 256, codeSize := 9, nextCode := 258, w := [k],
        buffer := 0, bufferLen := 0, output := [], trace := [] } 256 9).codeSize) 257 (writeBits (writeBits
      { table := initTable 256, codeSize := 9, nextCode := 258, w := [k],
        buffer := 0, bufferLen := 0, output := [], trace := [] } 256 9) k (writeBits
      { table := initTable 256, codeSize := 9, nextCode := 258, w := [k],
        buffer := 0, bufferLen := 0, output := [], trace := [] } 256 9).codeSize).codeSize)).buffer := by
      have h := Nat.and_pow_two_sub_one_eq_mod ((writeBits (writeBits (writeBits
      { table := initTable 256, codeSize := 9, nextCode := 258, w := [k],
        buffer := 0, bufferLen := 0, output := [], trace := [] } 256 9) k (writeBits
      { table := initTable 256, codeSize := 9, nextCode := 258, w := [k],
        buffer := 0, bufferLen := 0, output := [], trace := [] } 256 9).codeSize) 257 (writeBits (writeBits
      { table := initTable 256, codeSize := 9, nextCode := 258, w := [k],
        buffer := 0, bufferLen := 0, output := [], trace := [] } 256 9) k (writeBits
      { table := initTable 256, codeSize := 9, nextCode := 258, w := [k],
        buffer := 0, bufferLen := 0, output := [], trace := [] } 256 9).codeSize).codeSize)).buffer 8
      have hlt2 : ((writeBits (writeBits (writeBits
      { table := initTable 256, codeSize := 9, nextCode := 258, w := [k],
        buffer := 0, bufferLen := 0, output := [], trace := [] } 256 9) k (writeBits
      { table := initTable 256, codeSize := 9, nextCode := 258, w := [k],
        buffer := 0, bufferLen := 0, output := [], trace := [] } 256 9).codeSize) 257 (writeBits (writeBits
      { table := initTable 256, codeSize := 9, nextCode := 258, w := [k],
        buffer := 0, bufferLen := 0, output := [], trace := [] } 256 9) k (writeBits
      { table := initTable 256, codeSize := 9, nextCode := 258, w := [k],
        buffer := 0, bufferLen := 0, output := [], trace := [] } 256 9).codeSize).codeSize)).buffer < 256 := by
        have h28 : (2:Nat) ^ ((writeBits (writeBits (writeBits
      { table := initTable 256, codeSize := 9, nextCode := 258, w := [k],
        buffer := 0, bufferLen := 0, output := [], trace := [] } 256 9) k (writeBits
      { table := initTable 256, codeSize := 9, nextCode := 258, w := [k],
        buffer := 0, bufferLen := 0, output := [], trace := [] } 256 9).codeSize) 257 (writeBits (writeBits
      { table := initTable 256, codeSize := 9, nextCode := 258, w := [k],
        buffer := 0, bufferLen := 0, output := [], trace := [] } 256 9) k (writeBits
      { table := initTable 256, codeSize := 9, nextCode := 258, w := [k],
        buffer := 0, bufferLen := 0, output := [], trace := [] } 256 9).codeSize).codeSize)).bufferLen ≤ 2 ^ 8 :=
          Nat.pow_le_pow_right (by omega) (by omega)
        have h256 : (2:Nat) ^ 8 = 256 := by norm_num
        omega
      simpa [Nat.mod_eq_of_lt hlt2] using h
    rw [if_pos hbl, hmask, bytesToBits_append, bytesToBits_single,
      natBits_pad hbufC (le_of_lt hblC), ← List.append_assoc]
    rw [show bytesToBits ((writeBits (writeBits (writeBits
      { table := initTable 256, codeSize := 9, nextCode := 258, w := [k],
        buffer := 0, bufferLen := 0, output := [], trace := [] } 256 9) k (writeBits
      { table := initTable 256, codeSize := 9, nextCode := 258, w := [k],
        buffer := 0, bufferLen := 0, output := [], trace := [] } 256 9).codeSize) 257 (writeBits (writeBits
      { table := initTable 256, codeSize := 9, nextCode := 258, w := [k],
        buffer := 0, bufferLen := 0, output := [], trace := [] } 256 9) k (writeBits
      { table := initTable 256, codeSize := 9, nextCode := 258, w := [k],
        buffer := 0, bufferLen := 0, output := [], trace := [] } 256 9).codeSize).codeSize)).output ++
        natBits ((writeBits (writeBits (writeBits
      { table := initTable 256, codeSize := 9, nextCode := 258, w := [k],
        buffer := 0, bufferLen := 0, output := [], trace := [] } 256 9) k (writeBits
      { table := initTable 256, codeSize := 9, nextCode := 258, w := [k],
        buffer := 0, bufferLen := 0, output := [], trace := [] } 256 9).codeSize) 257 (writeBits (writeBits
      { table := initTable 256, codeSize := 9, nextCode := 258, w := [k],
        buffer := 0, bufferLen := 0, output := [], trace := [] } 256 9) k (writeBits
      { table := initTable 256, codeSize := 9, nextCode := 258, w := [k],
        buffer := 0, bufferLen := 0, output := [], trace := [] } 256 9).codeSize).codeSize)).buffer ((writeBits (writeBits (writeBits
      { table := initTable 256, codeSize := 9, nextCode := 258, w := [k],
        buffer := 0, bufferLen := 0, output := [], trace := [] } 256 9) k (writeBits
      { table := initTable 256, codeSize := 9, nextCode := 258, w := [k],
        buffer := 0, bufferLen := 0, output := [], trace := [] } 256 9).codeSize) 257 (writeBits (writeBits
      { table := initTable 256, codeSize := 9, nextCode := 258, w := [k],
        buffer := 0, bufferLen := 0, output := [], trace := [] } 256 9) k (writeBits
      { table := initTable 256, codeSize := 9, nextCode := 258, w := [k],
        buffer := 0, bufferLen := 0, output := [], trace := [] } 256 9).codeSize).codeSize)).bufferLen = bitsOf (writeBits (writeBits (writeBits
      { table := initTable 256, codeSize := 9, nextCode := 258, w := [k],
        buffer := 0, bufferLen := 0, output := [], trace := [] } 256 9) k (writeBits
      { table := initTable 256, codeSize := 9, nextCode := 258, w := [k],
        buffer := 0, bufferLen := 0, output := [], trace := [] } 256 9).codeSize) 257 (writeBits (writeBits
      { table := initTable 256, codeSize := 9, nextCode := 258, w := [k],
        buffer := 0, bufferLen := 0, output := [], trace := [] } 256 9) k (writeBits
      { table := initTable 256, codeSize := 9, nextCode := 258, w := [k],
        buffer := 0, bufferLen := 0, output := [], trace := [] } 256 9).codeSize).codeSize) from rfl,
      hbitsZ]
  · refine ⟨_, 0, hencodeEq, by omega, ?_⟩
    have hb0 : ((writeBits (writeBits (writeBits
      { table := initTable 256, codeSize := 9, nextCode := 258, w := [k],
        buffer := 0, bufferLen := 0, output := [], trace := [] } 256 9) k (writeBits
      { table := initTable 256, codeSize := 9, nextCode := 258, w := [k],
        buffer := 0, bufferLen := 0, output := [], trace := [] } 256 9).codeSize) 257 (writeBits (writeBits
      { table := initTable 256, codeSize := 9, nextCode := 258, w := [k],
        buffer := 0, bufferLen := 0, output := [], trace := [] } 256 9) k (writeBits
      { table := initTable 256, codeSize := 9, nextCode := 258, w := [k],
        buffer := 0, bufferLen := 0, output := [], trace := [] } 256 9).codeSize).codeSize)).bufferLen = 0 := by omega
    have hout := hbitsZ
    unfold bitsOf at hout
    rw [hb0, show natBits ((writeBits (writeBits (writeBits
      { table := initTable 256, codeSize := 9, nextCode := 258, w := [k],
        buffer := 0, bufferLen := 0, output := [], trace := [] } 256 9) k (writeBits
      { table := initTable 256, codeSize := 9, nextCode := 258, w := [k],
        buffer := 0, bufferLen := 0, output := [], trace := [] } 256 9).codeSize) 257 (writeBits (writeBits
      { table := initTable 256, codeSize := 9, nextCode := 258, w := [k],
        buffer := 0, bufferLen := 0, output := [], trace := [] } 256 9) k (writeBits
      { table := initTable 256, codeSize := 9, nextCode := 258, w := [k],
        buffer := 0, bufferLen := 0, output := [], trace := [] } 256 9).codeSize).codeSize)).buffer 0 = [] from rfl, List.append_nil] at hout
    rw [if_neg hbl, hout]
    simp

theorem claim_C8_single_witness :
    lzwTrace [5] 8 = some [(256, 9, 258), (5, 9, 258), (257, 9, 258)] ∧
    ∃ bytes padN, lzwEncode [5] 8 = some bytes ∧ padN < 8 ∧
      bytesToBits bytes = natBits 256 9 ++ natBits 5 9 ++ natBits 257 9 ++
        List.replicate padN false :=
  claim_C8_single 5 (by decide)




theorem le16_eq (v : Nat) (hv : v < 65536) : le16 v = [v % 256, v / 256] := by
  have ha : v &&& 255 = v % 256 := by
    have h := Nat.and_pow_two_sub_one_eq_mod v 8
    simpa using h
  have hb : (v >>> 8) &&& 255 = v / 256 := by
    have h3 : v >>> 8 = v / 256 := by
      rw [Nat.shiftRight_eq_div_pow]
    rw [h3]
    have h := Nat.and_pow_two_sub_one_eq_mod (v / 256) 8
    simpa [Nat.mod_eq_of_lt (show v / 256 < 256 by omega)] using h
  show [v &&& 255, (v >>> 8) &&& 255] = [v % 256, v / 256]
  rw [ha, hb]

/-- Claim C5: for every valid input, the GIF produced by `buildGif` starts
with ASCII `GIF89a`, carries the input width and height little-endian at
bytes 6-9, has `0xF7` at byte 10, the fixed 8-byte Graphic Control
Extension (transparency bit cleared, transparent index 0) at bytes 781-788,
the LZW minimum-code-size byte 8 at byte 799, and ends with `0x3B`. -/
theorem claim_C5_fixed_bytes (data : List Nat) (width height : Nat)
    (hpos : 0 < width * height) (hw : width < 65536) (hh : height < 65536) :
    ∃ g, buildGif data width height = some g ∧
      g.take 6 = [0x47, 0x49, 0x46, 0x38, 0x39, 0x61] ∧
      (g.drop 6).take 2 = [width % 256, width / 256] ∧
      (g.drop 8).take 2 = [height % 256, height / 256] ∧
      (g.drop 10).take 3 = [0xf7, 0x00, 0x00] ∧
      (g.drop 781).take 8 = [0x21, 0xf9, 0x04, 0x00, 0x00, 0x00, 0x00, 0x00] ∧
      (g.drop 799).take 1 = [8] ∧
      g.getLast? = some 0x3b := by
  obtain ⟨hplen, hilen, hival, hpad, hgct⟩ := quantize_shape data width height hpos
  have hne : (quantize data width height).2 ≠ [] := by
    intro hc
    rw [hc, List.length_nil] at hilen
    omega
  obtain ⟨bytes, henc, _⟩ := lzw_roundtrip_main _ hne hival
  have hg : buildGif data width height = some
      ([0x47, 0x49, 0x46, 0x38, 0x39, 0x61] ++
      (le16 width ++ le16 height ++ [0xf7, 0x00, 0x00]) ++
      gctBytes (quantize data width height).1 ++
      [0x21, 0xf9, 0x04, 0x00, 0x00, 0x00, 0x00, 0x00] ++
      ([0x2c] ++ le16 0 ++ le16 0 ++ le16 width ++ le16 height ++ [0x00]) ++
      [8] ++
      subBlocks bytes ++
      [0x00] ++
      [0x3b]) := by
    show (lzwEncode (quantize data width height).2 8).map _ = _
    rw [henc]
    rfl
  have hassoc : ([0x47, 0x49, 0x46, 0x38, 0x39, 0x61] ++
      (le16 width ++ le16 height ++ [0xf7, 0x00, 0x00]) ++
      gctBytes (quantize data width height).1 ++
      [0x21, 0xf9, 0x04, 0x00, 0x00, 0x00, 0x00, 0x00] ++
      ([0x2c] ++ le16 0 ++ le16 0 ++ le16 width ++ le16 height ++ [0x00]) ++
      [8] ++
      subBlocks bytes ++
      [0x00] ++
      [0x3b]) =
      [0x47, 0x49, 0x46, 0x38, 0x39, 0x61] ++ (le16 width ++ (le16 height ++ ([0xf7, 0x00, 0x00] ++ (gctBytes (quantize data width height).1 ++ ([0x21, 0xf9, 0x04, 0x00, 0x00, 0x00, 0x00, 0x00] ++ ([0x2c] ++ (le16 0 ++ (le16 0 ++ (le16 width ++ (le16 height ++ ([0x00] ++ ([8] ++ (subBlocks bytes ++ ([0x00] ++ [0x3b])))))))))))))) := by
    simp only [List.append_assoc]
  have hd6 : ([0x47, 0x49, 0x46, 0x38, 0x39, 0x61] ++ (le16 width ++ (le16 height ++ ([0xf7, 0x00, 0x00] ++ (gctBytes (quantize data width height).1 ++ ([0x21, 0xf9, 0x04, 0x00, 0x00, 0x00, 0x00, 0x00] ++ ([0x2c] ++ (le16 0 ++ (le16 0 ++ (le16 width ++ (le16 height ++ ([0x00] ++ ([8] ++ (subBlocks bytes ++ ([0x00] ++ [0x3b]))))))))))))))).drop 6 = le16 width ++ (le16 height ++ ([0xf7, 0x00, 0x00] ++ (gctBytes (quantize data width height).1 ++ ([0x21, 0xf9, 0x04, 0x00, 0x00, 0x00, 0x00, 0x00] ++ ([0x2c] ++ (le16 0 ++ (le16 0 ++ (le16 width ++ (le16 height ++ ([0x00] ++ ([8] ++ (subBlocks bytes ++ ([0x00] ++ [0x3b]))))))))))))) :=
    List.drop_left' rfl
  have hd8 : ([0x47, 0x49, 0x46, 0x38, 0x39, 0x61] ++ (le16 width ++ (le16 height ++ ([0xf7, 0x00, 0x00] ++ (gctBytes (quantize data width height).1 ++ ([0x21, 0xf9, 0x04, 0x00, 0x00, 0x00, 0x00, 0x00] ++ ([0x2c] ++ (le16 0 ++ (le16 0 ++ (le16 width ++ (le16 height ++ ([0x00] ++ ([8] ++ (subBlocks bytes ++ ([0x00] ++ [0x3b]))))))))))))))).drop 8 = le16 height ++ ([0xf7, 0x00, 0x00] ++ (gctBytes (quantize data width height).1 ++ ([0x21, 0xf9, 0x04, 0x00, 0x00, 0x00, 0x00, 0x00] ++ ([0x2c] ++ (le16 0 ++ (le16 0 ++ (le16 width ++ (le16 height ++ ([0x00] ++ ([8] ++ (subBlocks bytes ++ ([0x00] ++ [0x3b])))))))))))) := by
    have hdd : ([0x47, 0x49, 0x46, 0x38, 0x39, 0x61] ++ (le16 width ++ (le16 height ++ ([0xf7, 0x00, 0x00] ++ (gctBytes (quantize data width height).1 ++ ([0x21, 0xf9, 0x04, 0x00, 0x00, 0x00, 0x00, 0x00] ++ ([0x2c] ++ (le16 0 ++ (le16 0 ++ (le16 width ++ (le16 height ++ ([0x00] ++ ([8] ++ (subBlocks bytes ++ ([0x00] ++ [0x3b]))))))))))))))).drop 8 = (([0x47, 0x49, 0x46, 0x38, 0x39, 0x61] ++ (le16 width ++ (le16 height ++ ([0xf7, 0x00, 0x00] ++ (gctBytes (quantize data width height).1 ++ ([0x21, 0xf9, 0x04, 0x00, 0x00, 0x00, 0x00, 0x00] ++ ([0x2c] ++ (le16 0 ++ (le16 0 ++ (le16 width ++ (le16 height ++ ([0x00] ++ ([8] ++ (subBlocks bytes ++ ([0x00] ++ [0x3b]))))))))))))))).drop 6).drop 2 :=
      (List.drop_drop 2 6 _).symm
    rw [hdd, hd6]
    exact List.drop_left' rfl
  have hd10 : ([0x47, 0x49, 0x46, 0x38, 0x39, 0x61] ++ (le16 width ++ (le16 height ++ ([0xf7, 0x00, 0x00] ++ (gctBytes (quantize data width height).1 ++ ([0x21, 0xf9, 0x04, 0x00, 0x00, 0x00, 0x00, 0x00] ++ ([0x2c] ++ (le16 0 ++ (le16 0 ++ (le16 width ++ (le16 height ++ ([0x00] ++ ([8] ++ (subBlocks bytes ++ ([0x00] ++ [0x3b]))))))))))))))).drop 10 = [0xf7, 0x00, 0x00] ++ (gctBytes (quantize data width height).1 ++ ([0x21, 0xf9, 0x04, 0x00, 0x00, 0x00, 0x00, 0x00] ++ ([0x2c] ++ (le16 0 ++ (le16 0 ++ (le16 width ++ (le16 height ++ ([0x00] ++ ([8] ++ (subBlocks bytes ++ ([0x00] ++ [0x3b]))))))))))) := by
    have hdd : ([0x47, 0x49, 0x46, 0x38, 0x39, 0x61] ++ (le16 width ++ (le16 height ++ ([0xf7, 0x00, 0x00] ++ (gctBytes (quantize data width height).1 ++ ([0x21, 0xf9, 0x04, 0x00, 0x00, 0x00, 0x00, 0x00] ++ ([0x2c] ++ (le16 0 ++ (le16 0 ++ (le16 width ++ (le16 height ++ ([0x00] ++ ([8] ++ (subBlocks bytes ++ ([0x00] ++ [0x3b]))))))))))))))).drop 10 = (([0x47, 0x49, 0x46, 0x38, 0x39, 0x61] ++ (le16 width ++ (le16 height ++ ([0xf7, 0x00, 0x00] ++ (gctBytes (quantize data width height).1 ++ ([0x21, 0xf9, 0x04, 0x00, 0x00, 0x00, 0x00, 0x00] ++ ([0x2c] ++ (le16 0 ++ (le16 0 ++ (le16 width ++ (le16 height ++ ([0x00] ++ ([8] ++ (subBlocks bytes ++ ([0x00] ++ [0x3b]))))))))))))))).drop 8).drop 2 :=
      (List.drop_drop 2 8 _).symm
    rw [hdd, hd8]
    exact List.drop_left' rfl
  have hd13 : ([0x47, 0x49, 0x46, 0x38, 0x39, 0x61] ++ (le16 width ++ (le16 height ++ ([0xf7, 0x00, 0x00] ++ (gctBytes (quantize data width height).1 ++ ([0x21, 0xf9, 0x04, 0x00, 0x00, 0x00, 0x00, 0x00] ++ ([0x2c] ++ (le16 0 ++ (le16 0 ++ (le16 width ++ (le16 height ++ ([0x00] ++ ([8] ++ (subBlocks bytes ++ ([0x00] ++ [0x3b]))))))))))))))).drop 13 = gctBytes (quantize data width height).1 ++ ([0x21, 0xf9, 0x04, 0x00, 0x00, 0x00, 0x00, 0x00] ++ ([0x2c] ++ (le16 0 ++ (le16 0 ++ (le16 width ++ (le16 height ++ ([0x00] ++ ([8] ++ (subBlocks bytes ++ ([0x00] ++ [0x3b])))))))))) := by
    have hdd : ([0x47, 0x49, 0x46, 0x38, 0x39, 0x61] ++ (le16 width ++ (le16 height ++ ([0xf7, 0x00, 0x00] ++ (gctBytes (quantize data width height).1 ++ ([0x21, 0xf9, 0x04, 0x00, 0x00, 0x00, 0x00, 0x00] ++ ([0x2c] ++ (le16 0 ++ (le16 0 ++ (le16 width ++ (le16 height ++ ([0x00] ++ ([8] ++ (subBlocks bytes ++ ([0x00] ++ [0x3b]))))))))))))))).drop 13 = (([0x47, 0x49, 0x46, 0x38, 0x39, 0x61] ++ (le16 width ++ (le16 height ++ ([0xf7, 0x00, 0x00] ++ (gctBytes (quantize data width height).1 ++ ([0x21, 0xf9, 0x04, 0x00, 0x00, 0x00, 0x00, 0x00] ++ ([0x2c] ++ (le16 0 ++ (le16 0 ++ (le16 width ++ (le16 height ++ ([0x00] ++ ([8] ++ (subBlocks bytes ++ ([0x00] ++ [0x3b]))))))))))))))).drop 10).drop 3 :=
      (List.drop_drop 3 10 _).symm
    rw [hdd, hd10]
    exact List.drop_left' rfl
  have hd781 : ([0x47, 0x49, 0x46, 0x38, 0x39, 0x61] ++ (le16 width ++ (le16 height ++ ([0xf7, 0x00, 0x00] ++ (gctBytes (quantize data width height).1 ++ ([0x21, 0xf9, 0x04, 0x00, 0x00, 0x00, 0x00, 0x00] ++ ([0x2c] ++ (le16 0 ++ (le16 0 ++ (le16 width ++ (le16 height ++ ([0x00] ++ ([8] ++ (subBlocks bytes ++ ([0x00] ++ [0x3b]))))))))))))))).drop 781 = [0x21, 0xf9, 0x04, 0x00, 0x00, 0x00, 0x00, 0x00] ++ ([0x2c] ++ (le16 0 ++ (le16 0 ++ (le16 width ++ (le16 height ++ ([0x00] ++ ([8] ++ (subBlocks bytes ++ ([0x00] ++ [0x3b]))))))))) := by
    have hdd : ([0x47, 0x49, 0x46, 0x38, 0x39, 0x61] ++ (le16 width ++ (le16 height ++ ([0xf7, 0x00, 0x00] ++ (gctBytes (quantize data width height).1 ++ ([0x21, 0xf9, 0x04, 0x00, 0x00, 0x00, 0x00, 0x00] ++ ([0x2c] ++ (le16 0 ++ (le16 0 ++ (le16 width ++ (le16 height ++ ([0x00] ++ ([8] ++ (subBlocks bytes ++ ([0x00] ++ [0x3b]))))))))))))))).drop 781 = (([0x47, 0x49, 0x46, 0x38, 0x39, 0x61] ++ (le16 width ++ (le16 height ++ ([0xf7, 0x00, 0x00] ++ (gctBytes (quantize data width height).1 ++ ([0x21, 0xf9, 0x04, 0x00, 0x00, 0x00, 0x00, 0x00] ++ ([0x2c] ++ (le16 0 ++ (le16 0 ++ (le16 width ++ (le16 height ++ ([0x00] ++ ([8] ++ (subBlocks bytes ++ ([0x00] ++ [0x3b]))))))))))))))).drop 13).drop 768 :=
      (List.drop_drop 768 13 _).symm
    rw [hdd, hd13]
    exact List.drop_left' hgct
  have hd789 : ([0x47, 0x49, 0x46, 0x38, 0x39, 0x61] ++ (le16 width ++ (le16 height ++ ([0xf7, 0x00, 0x00] ++ (gctBytes (quantize data width height).1 ++ ([0x21, 0xf9, 0x04, 0x00, 0x00, 0x00, 0x00, 0x00] ++ ([0x2c] ++ (le16 0 ++ (le16 0 ++ (le16 width ++ (le16 height ++ ([0x00] ++ ([8] ++ (subBlocks bytes ++ ([0x00] ++ [0x3b]))))))))))))))).drop 789 = [0x2c] ++ (le16 0 ++ (le16 0 ++ (le16 width ++ (le16 height ++ ([0x00] ++ ([8] ++ (subBlocks bytes ++ ([0x00] ++ [0x3b])))))))) := by
    have hdd : ([0x47, 0x49, 0x46, 0x38, 0x39, 0x61] ++ (le16 width ++ (le16 height ++ ([0xf7, 0x00, 0x00] ++ (gctBytes (quantize data width height).1 ++ ([0x21, 0xf9, 0x04, 0x00, 0x00, 0x00, 0x00, 0x00] ++ ([0x2c] ++ (le16 0 ++ (le16 0 ++ (le16 width ++ (le16 height ++ ([0x00] ++ ([8] ++ (subBlocks bytes ++ ([0x00] ++ [0x3b]))))))))))))))).drop 789 = (([0x47, 0x49, 0x46, 0x38, 0x39, 0x61] ++ (le16 width ++ (le16 height ++ ([0xf7, 0x00, 0x00] ++ (gctBytes (quantize data width height).1 ++ ([0x21, 0xf9, 0x04, 0x00, 0x00, 0x00, 0x00, 0x00] ++ ([0x2c] ++ (le16 0 ++ (le16 0 ++ (le16 width ++ (le16 height ++ ([0x00] ++ ([8] ++ (subBlocks bytes ++ ([0x00] ++ [0x3b]))))))))))))))).drop 781).drop 8 :=
      (List.drop_drop 8 781 _).symm
    rw [hdd, hd781]
    exact List.drop_left' rfl
  have hd790 : ([0x47, 0x49, 0x46, 0x38, 0x39, 0x61] ++ (le16 width ++ (le16 height ++ ([0xf7, 0x00, 0x00] ++ (gctBytes (quantize data width height).1 ++ ([0x21, 0xf9, 0x04, 0x00, 0x00, 0x00, 0x00, 0x00] ++ ([0x2c] ++ (le16 0 ++ (le16 0 ++ (le16 width ++ (le16 height ++ ([0x00] ++ ([8] ++ (subBlocks bytes ++ ([0x00] ++ [0x3b]))))))))))))))).drop 790 = le16 0 ++ (le16 0 ++ (le16 width ++ (le16 height ++ ([0x00] ++ ([8] ++ (subBlocks bytes ++ ([0x00] ++ [0x3b]))))))) := by
    have hdd : ([0x47, 0x49, 0x46, 0x38, 0x39, 0x61] ++ (le16 width ++ (le16 height ++ ([0xf7, 0x00, 0x00] ++ (gctBytes (quantize data width height).1 ++ ([0x21, 0xf9, 0x04, 0x00, 0x00, 0x00, 0x00, 0x00] ++ ([0x2c] ++ (le16 0 ++ (le16 0 ++ (le16 width ++ (le16 height ++ ([0x00] ++ ([8] ++ (subBlocks bytes ++ ([0x00] ++ [0x3b]))))))))))))))).drop 790 = (([0x47, 0x49, 0x46, 0x38, 0x39, 0x61] ++ (le16 width ++ (le16 height ++ ([0xf7, 0x00, 0x00] ++ (gctBytes (quantize data width height).1 ++ ([0x21, 0xf9, 0x04, 0x00, 0x00, 0x00, 0x00, 0x00] ++ ([0x2c] ++ (le16 0 ++ (le16 0 ++ (le16 width ++ (le16 height ++ ([0x00] ++ ([8] ++ (subBlocks bytes ++ ([0x00] ++ [0x3b]))))))))))))))).drop 789).drop 1 :=
      (List.drop_drop 1 789 _).symm
    rw [hdd, hd789]
    exact List.drop_left' rfl
  have hd792 : ([0x47, 0x49, 0x46, 0x38, 0x39, 0x61] ++ (le16 width ++ (le16 height ++ ([0xf7, 0x00, 0x00] ++ (gctBytes (quantize data width height).1 ++ ([0x21, 0xf9, 0x04, 0x00, 0x00, 0x00, 0x00, 0x00] ++ ([0x2c] ++ (le16 0 ++ (le16 0 ++ (le16 width ++ (le16 height ++ ([0x00] ++ ([8] ++ (subBlocks bytes ++ ([0x00] ++ [0x3b]))))))))))))))).drop 792 = le16 0 ++ (le16 width ++ (le16 height ++ ([0x00] ++ ([8] ++ (subBlocks bytes ++ ([0x00] ++ [0x3b])))))) := by
    have hdd : ([0x47, 0x49, 0x46, 0x38, 0x39, 0x61] ++ (le16 width ++ (le16 height ++ ([0xf7, 0x00, 0x00] ++ (gctBytes (quantize data width height).1 ++ ([0x21, 0xf9, 0x04, 0x00, 0x00, 0x00, 0x00, 0x00] ++ ([0x2c] ++ (le16 0 ++ (le16 0 ++ (le16 width ++ (le16 height ++ ([0x00] ++ ([8] ++ (subBlocks bytes ++ ([0x00] ++ [0x3b]))))))))))))))).drop 792 = (([0x47, 0x49, 0x46, 0x38, 0x39, 0x61] ++ (le16 width ++ (le16 height ++ ([0xf7, 0x00, 0x00] ++ (gctBytes (quantize data width height).1 ++ ([0x21, 0xf9, 0x04, 0x00, 0x00, 0x00, 0x00, 0x00] ++ ([0x2c] ++ (le16 0 ++ (le16 0 ++ (le16 width ++ (le16 height ++ ([0x00] ++ ([8] ++ (subBlocks bytes ++ ([0x00] ++ [0x3b]))))))))))))))).drop 790).drop 2 :=
      (List.drop_drop 2 790 _).symm
    rw [hdd, hd790]
    exact List.drop_left' rfl
  have hd794 : ([0x47, 0x49, 0x46, 0x38, 0x39, 0x61] ++ (le16 width ++ (le16 height ++ ([0xf7, 0x00, 0x00] ++ (gctBytes (quantize data width height).1 ++ ([0x21, 0xf9, 0x04, 0x00, 0x00, 0x00, 0x00, 0x00] ++ ([0x2c] ++ (le16 0 ++ (le16 0 ++ (le16 width ++ (le16 height ++ ([0x00] ++ ([8] ++ (subBlocks bytes ++ ([0x00] ++ [0x3b]))))))))))))))).drop 794 = le16 width ++ (le16 height ++ ([0x00] ++ ([8] ++ (subBlocks bytes ++ ([0x00] ++ [0x3b]))))) := by
    have hdd : ([0x47, 0x49, 0x46, 0x38, 0x39, 0x61] ++ (le16 width ++ (le16 height ++ ([0xf7, 0x00, 0x00] ++ (gctBytes (quantize data width height).1 ++ ([0x21, 0xf9, 0x04, 0x00, 0x00, 0x00, 0x00, 0x00] ++ ([0x2c] ++ (le16 0 ++ (le16 0 ++ (le16 width ++ (le16 height ++ ([0x00] ++ ([8] ++ (subBlocks bytes ++ ([0x00] ++ [0x3b]))))))))))))))).drop 794 = (([0x47, 0x49, 0x46, 0x38, 0x39, 0x61] ++ (le16 width ++ (le16 height ++ ([0xf7, 0x00, 0x00] ++ (gctBytes (quantize data width height).1 ++ ([0x21, 0xf9, 0x04, 0x00, 0x00, 0x00, 0x00, 0x00] ++ ([0x2c] ++ (le16 0 ++ (le16 0 ++ (le16 width ++ (le16 height ++ ([0x00] ++ ([8] ++ (subBlocks bytes ++ ([0x00] ++ [0x3b]))))))))))))))).drop 792).drop 2 :=
      (List.drop_drop 2 792 _).symm
    rw [hdd, hd792]
    exact List.drop_left' rfl
  have hd796 : ([0x47, 0x49, 0x46, 0x38, 0x39, 0x61] ++ (le16 width ++ (le16 height ++ ([0xf7, 0x00, 0x00] ++ (gctBytes (quantize data width height).1 ++ ([0x21, 0xf9, 0x04, 0x00, 0x00, 0x00, 0x00, 0x00] ++ ([0x2c] ++ (le16 0 ++ (le16 0 ++ (le16 width ++ (le16 height ++ ([0x00] ++ ([8] ++ (subBlocks bytes ++ ([0x00] ++ [0x3b]))))))))))))))).drop 796 = le16 height ++ ([0x00] ++ ([8] ++ (subBlocks bytes ++ ([0x00] ++ [0x3b])))) := by
    have hdd : ([0x47, 0x49, 0x46, 0x38, 0x39, 0x61] ++ (le16 width ++ (le16 height ++ ([0xf7, 0x00, 0x00] ++ (gctBytes (quantize data width height).1 ++ ([0x21, 0xf9, 0x04, 0x00, 0x00, 0x00, 0x00, 0x00] ++ ([0x2c] ++ (le16 0 ++ (le16 0 ++ (le16 width ++ (le16 height ++ ([0x00] ++ ([8] ++ (subBlocks bytes ++ ([0x00] ++ [0x3b]))))))))))))))).drop 796 = (([0x47, 0x49, 0x46, 0x38, 0x39, 0x61] ++ (le16 width ++ (le16 height ++ ([0xf7, 0x00, 0x00] ++ (gctBytes (quantize data width height).1 ++ ([0x21, 0xf9, 0x04, 0x00, 0x00, 0x00, 0x00, 0x00] ++ ([0x2c] ++ (le16 0 ++ (le16 0 ++ (le16 width ++ (le16 height ++ ([0x00] ++ ([8] ++ (subBlocks bytes ++ ([0x00] ++ [0x3b]))))))))))))))).drop 794).drop 2 :=
      (List.drop_drop 2 794 _).symm
    rw [hdd, hd794]
    exact List.drop_left' rfl
  have hd798 : ([0x47, 0x49, 0x46, 0x38, 0x39, 0x61] ++ (le16 width ++ (le16 height ++ ([0xf7, 0x00, 0x00] ++ (gctBytes (quantize data width height).1 ++ ([0x21, 0xf9, 0x04, 0x00, 0x00, 0x00, 0x00, 0x00] ++ ([0x2c] ++ (le16 0 ++ (le16 0 ++ (le16 width ++ (le16 height ++ ([0x00] ++ ([8] ++ (subBlocks bytes ++ ([0x00] ++ [0x3b]))))))))))))))).drop 798 = [0x00] ++ ([8] ++ (subBlocks bytes ++ ([0x00] ++ [0x3b]))) := by
    have hdd : ([0x47, 0x49, 0x46, 0x38, 0x39, 0x61] ++ (le16 width ++ (le16 height ++ ([0xf7, 0x00, 0x00] ++ (gctBytes (quantize data width height).1 ++ ([0x21, 0xf9, 0x04, 0x00, 0x00, 0x00, 0x00, 0x00] ++ ([0x2c] ++ (le16 0 ++ (le16 0 ++ (le16 width ++ (le16 height ++ ([0x00] ++ ([8] ++ (subBlocks bytes ++ ([0x00] ++ [0x3b]))))))))))))))).drop 798 = (([0x47, 0x49, 0x46, 0x38, 0x39, 0x61] ++ (le16 width ++ (le16 height ++ ([0xf7, 0x00, 0x00] ++ (gctBytes (quantize data width height).1 ++ ([0x21, 0xf9, 0x04, 0x00, 0x00, 0x00, 0x00, 0x00] ++ ([0x2c] ++ (le16 0 ++ (le16 0 ++ (le16 width ++ (le16 height ++ ([0x00] ++ ([8] ++ (subBlocks bytes ++ ([0x00] ++ [0x3b]))))))))))))))).drop 796).drop 2 :=
      (List.drop_drop 2 796 _).symm
    rw [hdd, hd796]
    exact List.drop_left' rfl
  have hd799 : ([0x47, 0x49, 0x46, 0x38, 0x39, 0x61] ++ (le16 width ++ (le16 height ++ ([0xf7, 0x00, 0x00] ++ (gctBytes (quantize data width height).1 ++ ([0x21, 0xf9, 0x04, 0x00, 0x00, 0x00, 0x00, 0x00] ++ ([0x2c] ++ (le16 0 ++ (le16 0 ++ (le16 width ++ (le16 height ++ ([0x00] ++ ([8] ++ (subBlocks bytes ++ ([0x00] ++ [0x3b]))))))))))))))).drop 799 = [8] ++ (subBlocks bytes ++ ([0x00] ++ [0x3b])) := by
    have hdd : ([0x47, 0x49, 0x46, 0x38, 0x39, 0x61] ++ (le16 width ++ (le16 height ++ ([0xf7, 0x00, 0x00] ++ (gctBytes (quantize data width height).1 ++ ([0x21, 0xf9, 0x04, 0x00, 0x00, 0x00, 0x00, 0x00] ++ ([0x2c] ++ (le16 0 ++ (le16 0 ++ (le16 width ++ (le16 height ++ ([0x00] ++ ([8] ++ (subBlocks bytes ++ ([0x00] ++ [0x3b]))))))))))))))).drop 799 = (([0x47, 0x49, 0x46, 0x38, 0x39, 0x61] ++ (le16 width ++ (le16 height ++ ([0xf7, 0x00, 0x00] ++ (gctBytes (quantize data width height).1 ++ ([0x21, 0xf9, 0x04, 0x00, 0x00, 0x00, 0x00, 0x00] ++ ([0x2c] ++ (le16 0 ++ (le16 0 ++ (le16 width ++ (le16 height ++ ([0x00] ++ ([8] ++ (subBlocks bytes ++ ([0x00] ++ [0x3b]))))))))))))))).drop 798).drop 1 :=
      (List.drop_drop 1 798 _).symm
    rw [hdd, hd798]
    exact List.drop_left' rfl
  refine ⟨_, hg, ?_, ?_, ?_, ?_, ?_, ?_, ?_⟩
  · rw [hassoc]
    exact List.take_left' rfl
  · rw [hassoc, hd6, List.take_left' (show (le16 width).length = 2 from rfl)]
    exact le16_eq width hw
  · rw [hassoc, hd8, List.take_left' (show (le16 height).length = 2 from rfl)]
    exact le16_eq height hh
  · rw [hassoc, hd10]
    rfl
  · rw [hassoc, hd781]
    rfl
  · rw [hassoc, hd799]
    rfl
  · exact List.getLast?_concat _


theorem claim_C5_fixed_bytes_witness :
    ∃ g, buildGif [10, 20, 30, 255] 1 1 = some g ∧
      g.take 6 = [0x47, 0x49, 0x46, 0x38, 0x39, 0x61] ∧
      (g.drop 6).take 2 = [1 % 256, 1 / 256] ∧
      (g.drop 8).take 2 = [1 % 256, 1 / 256] ∧
      (g.drop 10).take 3 = [0xf7, 0x00, 0x00] ∧
      (g.drop 781).take 8 = [0x21, 0xf9, 0x04, 0x00, 0x00, 0x00, 0x00, 0x00] ∧
      (g.drop 799).take 1 = [8] ∧
      g.getLast? = some 0x3b :=
  claim_C5_fixed_bytes [10, 20, 30, 255] 1 1 (by decide) (by decide) (by decide)

set_option maxRecDepth 10000 in
/-- Claim C2 (refuted): the core performs no pixel-buffer shape validation.
A buffer of length 8 with width = height = 1 (so width*height*4 = 4 ≠ 8) is
not rejected: `buildGif` still returns a complete GIF byte stream instead of
failing fast. -/
theorem claim_C2_no_shape_check :
    ([10, 20, 30, 255, 1, 2, 3, 4] : List Nat).length ≠ 1 * 1 * 4 ∧
    (buildGif [10, 20, 30, 255, 1, 2, 3, 4] 1 1).isSome = true := by
  exact ⟨by decide, by decide⟩

/-- Claim C6: for every pixel of the full input buffer, the assigned index
is in `0..255` and dereferences to the palette colour at minimal squared
RGB distance from that pixel, ties resolved to the lowest index. -/
theorem claim_C6_nearest_index (data : List Nat) (width height i : Nat)
    (hlen : data.length = width * height * 4) (hi : i < width * height) :
    (quantize data width height).2.getD i 0 < 256 ∧
    (∀ c, c < 256 →
      sqDist (pixelAt data i)
        ((quantize data width height).1.getD
          ((quantize data width height).2.getD i 0) (0, 0, 0)) ≤
      sqDist (pixelAt data i) ((quantize data width height).1.getD c (0, 0, 0))) ∧
    (∀ c, c < 256 →
      sqDist (pixelAt data i) ((quantize data width height).1.getD c (0, 0, 0)) =
        sqDist (pixelAt data i)
          ((quantize data width height).1.getD
            ((quantize data width height).2.getD i 0) (0, 0, 0)) →
      (quantize data width height).2.getD i 0 ≤ c) :=
  quantize_nearest_index data width height i hlen hi

set_option maxRecDepth 4000 in
theorem claim_C6_nearest_index_witness :
    (quantize [10, 20, 30, 255] 1 1).2.getD 0 0 < 256 ∧
    (∀ c, c < 256 →
      sqDist (pixelAt [10, 20, 30, 255] 0)
        ((quantize [10, 20, 30, 255] 1 1).1.getD
          ((quantize [10, 20, 30, 255] 1 1).2.getD 0 0) (0, 0, 0)) ≤
      sqDist (pixelAt [10, 20, 30, 255] 0)
        ((quantize [10, 20, 30, 255] 1 1).1.getD c (0, 0, 0))) ∧
    (∀ c, c < 256 →
      sqDist (pixelAt [10, 20, 30, 255] 0)
        ((quantize [10, 20, 30, 255] 1 1).1.getD c (0, 0, 0)) =
        sqDist (pixelAt [10, 20, 30, 255] 0)
          ((quantize [10, 20, 30, 255] 1 1).1.getD
            ((quantize [10, 20, 30, 255] 1 1).2.getD 0 0) (0, 0, 0)) →
      (quantize [10, 20, 30, 255] 1 1).2.getD 0 0 ≤ c) :=
  claim_C6_nearest_index [10, 20, 30, 255] 1 1 0 (by decide) (by decide)

/-- Claim C7: for every non-empty input, `quantize` returns exactly 256
palette entries (black-padded beyond the median-cut colours) and an index
buffer of length width*height whose entries are valid palette offsets, and
the Global Colour Table is always exactly 768 bytes. -/
theorem claim_C7_shape_invariants (data : List Nat) (width height : Nat)
    (hpos : 0 < width * height) :
    (quantize data width height).1.length = 256 ∧
    (quantize data width height).2.length = width * height ∧
    (∀ x ∈ (quantize data width height).2, x < 256) ∧
    (∀ j, (medianCut (samplesOf data (width * height)) 8).length ≤ j → j < 256 →
      (quantize data width height).1.getD j (0, 0, 0) = (0, 0, 0)) ∧
    (gctBytes (quantize data width height).1).length = 768 :=
  quantize_shape data width height hpos

set_option maxRecDepth 4000 in
theorem claim_C7_shape_invariants_witness :
    (quantize [10, 20, 30, 255] 1 1).1.length = 256 ∧
    (quantize [10, 20, 30, 255] 1 1).2.length = 1 * 1 ∧
    (∀ x ∈ (quantize [10, 20, 30, 255] 1 1).2, x < 256) ∧
    (∀ j, (medianCut (samplesOf [10, 20, 30, 255] (1 * 1)) 8).length ≤ j → j < 256 →
      (quantize [10, 20, 30, 255] 1 1).1.getD j (0, 0, 0) = (0, 0, 0)) ∧
    (gctBytes (quantize [10, 20, 30, 255] 1 1).1).length = 768 :=
  claim_C7_shape_invariants [10, 20, 30, 255] 1 1 (by decide)

end GifSpoofer
